import Mathlib

set_option maxHeartbeats 1000000
set_option maxRecDepth 4000

/-!
Shallow embedding of `dbms/src/Functions/FunctionsExternalDictionaries.h`
(the external-dictionary function layer: `dictHas`, the typed `dictGet*` /
`dictGet*OrDefault` family, the type-erased `dictGet` / `dictGetOrDefault`,
`dictGetHierarchy` and `dictIsIn`), together with theorems checking the
specification's claims about this layer.

Modelling conventions:
 - `UInt64` dictionary ids are modelled as `Fin (2 ^ 64)`.
 - A dictionary backend (`FlatDictionary`, `HashedDictionary`, ... -- not part
   of this file's source) is an abstract record of its concrete kind, its
   capability flags and its lookup functions; operations the backends perform
   internally (`has`, `get`, get-or-default substitution, `toParent`,
   `isIn*`) are fields or are modelled from the spec's backend contract.
 - Columns are modelled by their shape as distinguished by the source's
   `checkAndGetColumn*` probes: full vector, constant, tuple, constant tuple,
   or "any other column" (carrying its generic numeric accessor).
 - Exceptions are modelled by `Except Err`, where `Err` carries the error
   code and the message text.
 - The value type of the typed get family is an abstract `α` (the C++ code
   is a macro-generated template over the 13 numeric types and `String`);
   `Inhabited α` models the default-constructed `Type()` value.
-/

def UINT64_CARD : Nat := 2 ^ 64

instance : NeZero UINT64_CARD := ⟨by decide⟩

/-- Dictionary key type, modelling `UInt64` ids. -/
abbrev DictId := Fin UINT64_CARD

/-- Error codes used by the layer (from the `ErrorCodes` namespace). -/
inductive ErrCode where
  | ILLEGAL_COLUMN
  | ILLEGAL_TYPE_OF_ARGUMENT
  | UNKNOWN_TYPE
  | UNSUPPORTED_METHOD
  | TYPE_MISMATCH
  | NUMBER_OF_ARGUMENTS_DOESNT_MATCH
  | BAD_ARGUMENTS
  | DICTIONARIES_WAS_NOT_LOADED
  | NOT_IMPLEMENTED
deriving DecidableEq, Repr

/-- A thrown `DB::Exception`: error code plus message text. -/
structure Err where
  code : ErrCode
  msg : String
deriving DecidableEq, Repr

/-- The concrete dictionary backend classes probed by `typeid_cast` dispatch. -/
inductive DictKind where
  | flat
  | hashed
  | cache
  | complexKeyHashed
  | complexKeyCache
  | trie
  | rangeHashed
deriving DecidableEq, Repr

/-- Declared attribute types (`TypeIndex`) relevant to this layer: the 13
numeric/temporal tags plus `String` handled by the `FOR_DICT_TYPES` dispatch,
and `tOther` standing for every other `TypeIndex` (which has no typed
executor in this layer). -/
inductive TypeTag where
  | tString
  | tUInt8
  | tUInt16
  | tUInt32
  | tUInt64
  | tInt8
  | tInt16
  | tInt32
  | tInt64
  | tFloat32
  | tFloat64
  | tDate
  | tDateTime
  | tUUID
  | tOther
deriving DecidableEq, Repr

/-- The typed implementation selected by the type-erased entry points
(`FunctionDictGetString`, `FunctionDictGet<DataTypeTYPE, ...>`, and the
OrDefault counterparts). -/
inductive SelectedImpl where
  | implGetString
  | implGetTyped (t : TypeTag)
  | implGetStringOrDefault
  | implGetTypedOrDefault (t : TypeTag)
deriving DecidableEq, Repr

/-- A loaded dictionary handle (`IDictionaryBase` and the concrete backend it
is cast to).  `kind` is the concrete class; the lookup fields model the
backend operations, which live outside this source file.  `getValue` models
the backend returning a value for every id (absent ids yield the attribute's
configured null value, internal to the backend). -/
structure Dictionary (α : Type) (κ : Type) where
  kind : DictKind
  typeName : String
  keyDescription : String
  attributes : List (String × TypeTag)
  hasHierarchy : Bool
  hasKey : DictId → Bool
  hasCKey : κ → Bool
  getValue : String → DictId → α
  getCKValue : String → κ → α
  getRangeValue : String → DictId → Int → α
  toParent : DictId → DictId
  isIn : DictId → DictId → Bool

/-- Modelled from the spec: the backend contract
`get<T>(attrName, id-list, default-list-or-scalar) -> T-list` -- "the backend
receives the whole default vector and performs the check+substitute
internally". -/
def Dictionary.getOrDefaultValue (d : Dictionary α κ) (attr : String)
    (id : DictId) (dflt : α) : α :=
  if d.hasKey id then d.getValue attr id else dflt

/-- Modelled from the spec: the composite-key analog of the backend
get-or-default contract. -/
def Dictionary.getCKOrDefaultValue (d : Dictionary α κ) (attr : String)
    (key : κ) (dflt : α) : α :=
  if d.hasCKey key then d.getCKValue attr key else dflt

/-- The external dictionary registry (`ExternalDictionaries`): maps a name to
a loaded dictionary, if any. -/
def DictRegistry (α κ : Type) := String → Option (Dictionary α κ)

/-- `dictionaries.getDictionary(name)`: resolves the handle or throws (the
throw happens inside the registry collaborator and is surfaced unchanged). -/
def getDictionary (reg : DictRegistry α κ) (name : String) :
    Except Err (Dictionary α κ) :=
  match reg name with
  | some d => .ok d
  | none => .error ⟨.DICTIONARIES_WAS_NOT_LOADED, "No such dictionary: " ++ name⟩

/-- The dictionary-name (or attribute-name) argument as the code probes it:
`checkAndGetColumnConst<ColumnString>` either succeeds with the constant
string or fails. -/
inductive NameCol where
  | cstr (s : String)
  | nonconst
deriving DecidableEq, Repr

/-- The key argument column, by the shapes the code's probes distinguish:
`ColumnUInt64`, `ColumnConst(UInt64)`, `ColumnTuple`, `ColumnConst(Tuple)`,
or any other column (carrying its size and generic `getUInt` accessor). -/
inductive KeyCol (κ : Type) where
  | u64 (data : List DictId)
  | u64const (size : Nat) (val : DictId)
  | tup (rows : List κ)
  | tupconst (size : Nat) (row : κ)
  | othercol (size : Nat) (getUIntAt : Nat → DictId)

/-- Row count of a key column. -/
def KeyCol.size : KeyCol κ → Nat
  | .u64 data => data.length
  | .u64const n _ => n
  | .tup rows => rows.length
  | .tupconst n _ => n
  | .othercol n _ => n

/-- `IColumn::convertToFullColumnIfConst`: constant columns are materialized
into full columns, other columns are returned unchanged. -/
def KeyCol.convertToFullColumnIfConst : KeyCol κ → KeyCol κ
  | .u64const n v => .u64 (List.replicate n v)
  | .tupconst n r => .tup (List.replicate n r)
  | c => c

/-- The fourth (point-in-time) argument of range gets: an `Int64` column,
an `Int64` constant, or any other integer-representable column accessed
through its generic accessor (e.g. `Date`, `DateTime`). -/
inductive DateCol where
  | i64 (data : List Int)
  | i64const (size : Nat) (val : Int)
  | othercol (size : Nat) (getIntAt : Nat → Int)

/-- The default-value argument column of the get-or-default family:
`ColumnVector<Type>` (resp. `ColumnString`), a constant of that type, or an
illegal column. -/
inductive DefCol (α : Type) where
  | vecd (data : List α)
  | constd (size : Nat) (val : α)
  | otherd

/-- A result column produced by the layer: a full vector or a constant
column (single value broadcast over a row count). -/
inductive ResCol (β : Type) where
  | vec (data : List β)
  | const (size : Nat) (val : β)
deriving DecidableEq, Repr

/-- The result column of `dictGetHierarchy`: a `ColumnArray` (flat value
buffer plus cumulative offsets) or a constant array column. -/
inductive HierResCol where
  | arr (flat : List DictId) (offsets : List Nat)
  | constArr (size : Nat) (val : List DictId)
deriving DecidableEq, Repr

/-- The column shapes distinguished by `getColumnDataAsPaddedPODArray`
(lines 1683-1702): a `ColumnVector<T>` whose storage can be borrowed, a
`ColumnConst` whose nested data column is a `ColumnVector<T>` (the nested
column holds a single element), or any other column, read element-wise
through the generic numeric-extraction accessor. -/
inductive PodCol (τ : Type) where
  | vec (data : List τ)
  | constVec (size : Nat) (val : τ)
  | other (size : Nat) (acc : Nat → τ)

/-- Row count of a `PodCol`. -/
def PodCol.size : PodCol τ → Nat
  | .vec data => data.length
  | .constVec n _ => n
  | .other n _ => n

/-- `getColumnDataAsPaddedPODArray` (lines 1683-1702): borrow the vector
storage if the column is a `ColumnVector<T>`; borrow the nested single-element
data column if it is a constant over a `ColumnVector<T>`
(`checkAndGetColumnConstData`); otherwise materialize a backup buffer of the
column's size, filled through the generic accessor. -/
def getColumnDataAsPaddedPODArray : PodCol τ → List τ
  | .vec data => data
  | .constVec _ v => [v]
  | .other n acc => (List.range n).map acc

/-! ### The hierarchy walker (`get_hierarchies` lambda, lines 1433-1491) -/

/-- Per-row walker state: the hierarchy chain accumulated so far, and the
current id (the corresponding entry of `in_array`). -/
abbrev HierRow := List DictId × DictId

/-- One pass of the per-row body of the walker loop: if the current id is
non-zero and has not already appeared in the row's chain (cycle guard),
append it; otherwise leave the row unchanged. -/
def pushRow (r : HierRow) : HierRow :=
  if r.2 ≠ 0 ∧ r.2 ∉ r.1 then (r.1 ++ [r.2], r.2) else r

/-- Adopt the bulk `toParent` translation as the next current id. -/
def advanceRow (p : DictId → DictId) (r : HierRow) : HierRow :=
  (r.1, p r.2)

/-- Whether the loop body would append this row's current id this round
(the negation of the row being "zeroed or looping"). -/
def rowActiveB (r : HierRow) : Bool :=
  decide (r.2 ≠ 0 ∧ r.2 ∉ r.1)

/-- `all_zeroes` is the negation of this: some row appends this round. -/
def anyActiveB (rs : List HierRow) : Bool :=
  rs.any rowActiveB

/-- One full round of the walker loop: append per-row, then translate all
current ids through `toParent` at once. -/
def stepRows (p : DictId → DictId) (rs : List HierRow) : List HierRow :=
  (rs.map pushRow).map (advanceRow p)

/-- The `while (true)` loop of the walker, fuelled.  The source loop has no
fuel; the stabilization theorems below show the chosen fuel is never
exhausted before `all_zeroes` stops the loop, so the fuel is inessential. -/
def hierLoop (p : DictId → DictId) : Nat → List HierRow → List HierRow
  | 0, rs => rs
  | Nat.succ fuel, rs =>
    if anyActiveB rs then hierLoop p fuel (stepRows p rs) else rs

/-- Initial walker state: one row per input id, with an empty chain. -/
def initRows (ids : List DictId) : List HierRow :=
  ids.map (fun x => ([], x))

/-- Fuel used by the embedding of the walker: strictly more rounds than the
walker can ever append ids (each round that continues appends at least one id
and each of the `n` chains holds at most `2 ^ 64` distinct ids). -/
def FUEL (n : Nat) : Nat := n * UINT64_CARD + 1

/-- The per-row hierarchy chains computed by the walker loop. -/
def hierChains (p : DictId → DictId) (fuel : Nat) (ids : List DictId) :
    List (List DictId) :=
  (hierLoop p fuel (initRows ids)).map Prod.fst

/-- The flattening loop at the end of the walker (lines 1482-1490): insert
each row's chain into the flat output buffer and record the buffer size so
far as the row's offset. -/
def flattenAux : List DictId → List Nat → List (List DictId) →
    List DictId × List Nat
  | acc, offs, [] => (acc, offs)
  | acc, offs, c :: cs => flattenAux (acc ++ c) (offs ++ [acc.length + c.length]) cs

/-- Flatten all rows' chains into one buffer plus cumulative offsets. -/
def flattenChains (cs : List (List DictId)) : List DictId × List Nat :=
  flattenAux [] [] cs

/-- The whole `get_hierarchies` lambda: run the walker loop, then flatten. -/
def getHierarchies (p : DictId → DictId) (ids : List DictId) :
    List DictId × List Nat :=
  flattenChains (hierChains p (FUEL ids.length) ids)

/-- The evolution of a single row of the walker across rounds (each round
appends, then translates; rounds are applied to every row uniformly). -/
def rowStep (p : DictId → DictId) (r : HierRow) : HierRow :=
  advanceRow p (pushRow r)

/-- A single row's walker state after `t` rounds, starting from id `x`. -/
def rowState (p : DictId → DictId) (t : Nat) (x : DictId) : HierRow :=
  (rowStep p)^[t] (([] : List DictId), x)

/-- The whole walker state after `t` rounds. -/
def stateAt (p : DictId → DictId) (ids : List DictId) (t : Nat) :
    List HierRow :=
  (stepRows p)^[t] (initRows ids)

/-! ### Reference chain from the spec -/

/-- Fuelled ancestor chain following the parent relation and stopping before
the sentinel 0. -/
def specChainF (p : DictId → DictId) : Nat → DictId → List DictId
  | 0, _ => []
  | Nat.succ f, x => if x = 0 then [] else x :: specChainF p f (p x)

/-- Modelled from the spec: the per-row chain
`[id, parent(id), parent(parent(id)), ...]` "up to the sentinel (0)".  The
fuel `2 ^ 64 + 1` is enough for any acyclic parent relation (the stability
lemmas below make this precise). -/
def specChain (p : DictId → DictId) (x : DictId) : List DictId :=
  specChainF p (UINT64_CARD + 1) x

/-- Cumulative sums, describing the offsets array: entry `i` is the total
length of chains `0..i`. -/
def cumSums : Nat → List Nat → List Nat
  | _, [] => []
  | acc, n :: ns => (acc + n) :: cumSums (acc + n) ns

/-- The two-cycle parent relation from the spec: `parent(5) = 7`,
`parent(7) = 5`. -/
def twoCycleParent : DictId → DictId :=
  fun x => if x = 5 then 7 else if x = 7 then 5 else 0

/-- The acyclic example relation from the spec's end-to-end scenario:
`parent(100) = 10`, `parent(10) = 1`, `parent(1) = 0`. -/
def geoParent : DictId → DictId :=
  fun x => if x = 100 then 10 else if x = 10 then 1 else 0

/-! ### FunctionDictHas -/

/-- `FunctionDictHas::executeDispatchSimple` body after the `typeid_cast`
succeeded (lines 140-152). -/
def dictHasSimpleBody (d : Dictionary α κ) (key : KeyCol κ) :
    Except Err (ResCol Bool) :=
  match key with
  | .u64 data => .ok (.vec (data.map d.hasKey))
  | _ => .error ⟨.ILLEGAL_COLUMN, "Second argument of function dictHas must be UInt64"⟩

/-- `FunctionDictHas::executeDispatchComplex` body after the `typeid_cast`
succeeded (lines 163-178).  Note: no constant-tuple materialization here. -/
def dictHasComplexBody (d : Dictionary α κ) (key : KeyCol κ) :
    Except Err (ResCol Bool) :=
  match key with
  | .tup rows => .ok (.vec (rows.map d.hasCKey))
  | _ => .error ⟨.TYPE_MISMATCH, "Second argument of function dictHas must be " ++ d.keyDescription⟩

/-- One `typeid_cast` probe: succeeds exactly when the handle's concrete kind
is the probed class, in which case the probed body runs. -/
def dispatchProbe (k : DictKind) (d : Dictionary α κ)
    (body : Dictionary α κ → Except Err β) : Option (Except Err β) :=
  if d.kind = k then some (body d) else none

/-- The dispatch chain of `FunctionDictHas::executeImpl` (lines 123-129). -/
def dictHasDispatch (d : Dictionary α κ) (key : KeyCol κ) :
    Except Err (ResCol Bool) :=
  match dispatchProbe .flat d (fun dd => dictHasSimpleBody dd key) <|>
        dispatchProbe .hashed d (fun dd => dictHasSimpleBody dd key) <|>
        dispatchProbe .cache d (fun dd => dictHasSimpleBody dd key) <|>
        dispatchProbe .complexKeyHashed d (fun dd => dictHasComplexBody dd key) <|>
        dispatchProbe .complexKeyCache d (fun dd => dictHasComplexBody dd key) <|>
        dispatchProbe .trie d (fun dd => dictHasComplexBody dd key) with
  | some r => r
  | none => .error ⟨.UNKNOWN_TYPE, "Unsupported dictionary type " ++ d.typeName⟩

/-- `FunctionDictHas::executeImpl` (lines 100-130): constant-name check,
zero-row short circuit, registry resolution, then backend dispatch. -/
def dictHasExec (reg : DictRegistry α κ) (dictName : NameCol)
    (key : KeyCol κ) (rows : Nat) : Except Err (ResCol Bool) :=
  match dictName with
  | .nonconst => .error ⟨.ILLEGAL_COLUMN, "First argument of function dictHas must be a constant string"⟩
  | .cstr s =>
    if rows = 0 then .ok (.vec [])
    else do
      let d ← getDictionary reg s
      dictHasDispatch d key

/-! ### FunctionDictGet (typed get; also covers FunctionDictGetString) -/

/-- `FunctionDictGet::executeDispatch` body after the `typeid_cast` succeeded
(lines 765-794): arity check, attribute-name check, then the vector / constant
id paths. -/
def dictGetSimpleBody (fname : String) (attrName : NameCol) (key : KeyCol κ)
    (dateArg : Option DateCol) (d : Dictionary α κ) : Except Err (ResCol α) :=
  if dateArg.isSome then
    .error ⟨.NUMBER_OF_ARGUMENTS_DOESNT_MATCH, "Function " ++ fname ++ " for dictionary of type " ++ d.typeName ++ " requires exactly 3 arguments."⟩
  else
    match attrName with
    | .nonconst => .error ⟨.ILLEGAL_COLUMN, "Second argument of function " ++ fname ++ " must be a constant string"⟩
    | .cstr attr =>
      match key with
      | .u64 ids => .ok (.vec (ids.map (d.getValue attr)))
      | .u64const n v => .ok (.const n (d.getValue attr v))
      | _ => .error ⟨.ILLEGAL_COLUMN, "Third argument of function " ++ fname ++ " must be UInt64"⟩

/-- `FunctionDictGet::executeDispatchComplex` body (lines 805-835): arity
check, attribute-name check, constant-key materialization, tuple path. -/
def dictGetComplexBody (fname : String) (attrName : NameCol) (key : KeyCol κ)
    (dateArg : Option DateCol) (d : Dictionary α κ) : Except Err (ResCol α) :=
  if dateArg.isSome then
    .error ⟨.NUMBER_OF_ARGUMENTS_DOESNT_MATCH, "Function " ++ fname ++ " for dictionary of type " ++ d.typeName ++ " requires exactly 3 arguments"⟩
  else
    match attrName with
    | .nonconst => .error ⟨.ILLEGAL_COLUMN, "Second argument of function " ++ fname ++ " must be a constant string"⟩
    | .cstr attr =>
      match key.convertToFullColumnIfConst with
      | .tup rows => .ok (.vec (rows.map (d.getCKValue attr)))
      | _ => .error ⟨.TYPE_MISMATCH, "Third argument of function " ++ fname ++ " must be " ++ d.keyDescription⟩

/-- View of a key column as a `getColumnDataAsPaddedPODArray` source.  Tuple
columns do not implement the generic numeric accessor (`IColumn::getUInt`
throws for them). -/
def KeyCol.asPodSource : KeyCol κ → Except Err (PodCol DictId)
  | .u64 data => .ok (.vec data)
  | .u64const n v => .ok (.constVec n v)
  | .othercol n f => .ok (.other n f)
  | .tup _ => .error ⟨.NOT_IMPLEMENTED, "Method getUInt is not supported for ColumnTuple"⟩
  | .tupconst _ _ => .error ⟨.NOT_IMPLEMENTED, "Method getUInt is not supported for ColumnTuple"⟩

/-- View of the point-in-time column as a `getColumnDataAsPaddedPODArray`
source. -/
def DateCol.asPodSource : DateCol → PodCol Int
  | .i64 data => .vec data
  | .i64const n v => .constVec n v
  | .othercol n f => .other n f

/-- `FunctionDictGet::executeDispatchRange` body (lines 846-869): arity
check, attribute-name check, extraction of ids and dates through
`getColumnDataAsPaddedPODArray`, then the backend range get (modelled from
the spec as a row-wise lookup). -/
def dictGetRangeBody (fname : String) (attrName : NameCol) (key : KeyCol κ)
    (dateArg : Option DateCol) (d : Dictionary α κ) : Except Err (ResCol α) :=
  match dateArg with
  | none =>
    .error ⟨.NUMBER_OF_ARGUMENTS_DOESNT_MATCH, "Function " ++ fname ++ " for dictionary of type " ++ d.typeName ++ " requires exactly 4 arguments"⟩
  | some dates =>
    match attrName with
    | .nonconst => .error ⟨.ILLEGAL_COLUMN, "Second argument of function " ++ fname ++ " must be a constant string"⟩
    | .cstr attr => do
      let idsrc ← key.asPodSource
      let idvals := getColumnDataAsPaddedPODArray idsrc
      let datevals := getColumnDataAsPaddedPODArray dates.asPodSource
      .ok (.vec (List.zipWith (fun i dt => d.getRangeValue attr i dt) idvals datevals))

/-- The dispatch chain of `FunctionDictGet::executeImpl` (lines 747-754). -/
def dictGetDispatch (fname : String) (attrName : NameCol) (key : KeyCol κ)
    (dateArg : Option DateCol) (d : Dictionary α κ) : Except Err (ResCol α) :=
  match dispatchProbe .flat d (dictGetSimpleBody fname attrName key dateArg) <|>
        dispatchProbe .hashed d (dictGetSimpleBody fname attrName key dateArg) <|>
        dispatchProbe .cache d (dictGetSimpleBody fname attrName key dateArg) <|>
        dispatchProbe .complexKeyHashed d (dictGetComplexBody fname attrName key dateArg) <|>
        dispatchProbe .complexKeyCache d (dictGetComplexBody fname attrName key dateArg) <|>
        dispatchProbe .trie d (dictGetComplexBody fname attrName key dateArg) <|>
        dispatchProbe .rangeHashed d (dictGetRangeBody fname attrName key dateArg) with
  | some r => r
  | none => .error ⟨.UNKNOWN_TYPE, "Unsupported dictionary type " ++ d.typeName⟩

/-- `FunctionDictGet::executeImpl` (lines 731-755). -/
def dictGetExec (fname : String) (reg : DictRegistry α κ)
    (dictName attrName : NameCol) (key : KeyCol κ) (dateArg : Option DateCol)
    (rows : Nat) : Except Err (ResCol α) :=
  match dictName with
  | .nonconst => .error ⟨.ILLEGAL_COLUMN, "First argument of function " ++ fname ++ " must be a constant string"⟩
  | .cstr s =>
    if rows = 0 then .ok (.vec [])
    else do
      let d ← getDictionary reg s
      dictGetDispatch fname attrName key dateArg d

/-! ### FunctionDictGetOrDefault (typed; also covers
FunctionDictGetStringOrDefault) -/

/-- `FunctionDictGetOrDefault::executeDispatch` body after the `typeid_cast`
succeeded, covering both id shapes (lines 976-1065): vector ids zip or
broadcast the defaults; a constant id first checks existence and, when the
key is absent with a vector default, reuses the original default column as
the result. -/
def dictGetOrDefaultSimpleBody [Inhabited α] (fname : String)
    (attrName : NameCol) (key : KeyCol κ) (dflt : DefCol α)
    (d : Dictionary α κ) : Except Err (ResCol α) :=
  match attrName with
  | .nonconst => .error ⟨.ILLEGAL_COLUMN, "Second argument of function " ++ fname ++ " must be a constant string"⟩
  | .cstr attr =>
    match key with
    | .u64 ids =>
      match dflt with
      | .vecd defs =>
        .ok (.vec (List.zipWith (fun i df => d.getOrDefaultValue attr i df) ids defs))
      | .constd _ df =>
        .ok (.vec (ids.map (fun i => d.getOrDefaultValue attr i df)))
      | .otherd => .error ⟨.ILLEGAL_COLUMN, "Fourth argument of function " ++ fname ++ " must be of the declared attribute type"⟩
    | .u64const n v =>
      match dflt with
      | .vecd defs =>
        if d.hasKey v then
          .ok (.const n (d.getOrDefaultValue attr v default))
        else
          .ok (.vec defs)
      | .constd _ df =>
        .ok (.const n (d.getOrDefaultValue attr v df))
      | .otherd => .error ⟨.ILLEGAL_COLUMN, "Fourth argument of function " ++ fname ++ " must be of the declared attribute type"⟩
    | _ => .error ⟨.ILLEGAL_COLUMN, "Third argument of function " ++ fname ++ " must be UInt64"⟩

/-- `FunctionDictGetOrDefault::executeDispatchComplex` body (lines
1067-1115).  The key column is materialized and cast to a tuple (the
reference `typeid_cast` throws on any other column). -/
def dictGetOrDefaultComplexBody [Inhabited α] (fname : String)
    (attrName : NameCol) (key : KeyCol κ) (dflt : DefCol α)
    (d : Dictionary α κ) : Except Err (ResCol α) :=
  match attrName with
  | .nonconst => .error ⟨.ILLEGAL_COLUMN, "Second argument of function " ++ fname ++ " must be a constant string"⟩
  | .cstr attr =>
    match key.convertToFullColumnIfConst with
    | .tup rows =>
      match dflt with
      | .vecd defs =>
        .ok (.vec (List.zipWith (fun r df => d.getCKOrDefaultValue attr r df) rows defs))
      | .constd _ df =>
        .ok (.vec (rows.map (fun r => d.getCKOrDefaultValue attr r df)))
      | .otherd => .error ⟨.ILLEGAL_COLUMN, "Fourth argument of function " ++ fname ++ " must be of the declared attribute type"⟩
    | _ => .error ⟨.TYPE_MISMATCH, "Bad cast: the key column is not a ColumnTuple"⟩

/-- The dispatch chain of `FunctionDictGetOrDefault::executeImpl` (lines
967-973): no range probe. -/
def dictGetOrDefaultDispatch [Inhabited α] (fname : String)
    (attrName : NameCol) (key : KeyCol κ) (dflt : DefCol α)
    (d : Dictionary α κ) : Except Err (ResCol α) :=
  match dispatchProbe .flat d (dictGetOrDefaultSimpleBody fname attrName key dflt) <|>
        dispatchProbe .hashed d (dictGetOrDefaultSimpleBody fname attrName key dflt) <|>
        dispatchProbe .cache d (dictGetOrDefaultSimpleBody fname attrName key dflt) <|>
        dispatchProbe .complexKeyHashed d (dictGetOrDefaultComplexBody fname attrName key dflt) <|>
        dispatchProbe .complexKeyCache d (dictGetOrDefaultComplexBody fname attrName key dflt) <|>
        dispatchProbe .trie d (dictGetOrDefaultComplexBody fname attrName key dflt) with
  | some r => r
  | none => .error ⟨.UNKNOWN_TYPE, "Unsupported dictionary type " ++ d.typeName⟩

/-- `FunctionDictGetOrDefault::executeImpl` (lines 951-974). -/
def dictGetOrDefaultExec [Inhabited α] (fname : String)
    (reg : DictRegistry α κ) (dictName attrName : NameCol) (key : KeyCol κ)
    (dflt : DefCol α) (rows : Nat) : Except Err (ResCol α) :=
  match dictName with
  | .nonconst => .error ⟨.ILLEGAL_COLUMN, "First argument of function " ++ fname ++ " must be a constant string"⟩
  | .cstr s =>
    if rows = 0 then .ok (.vec [])
    else do
      let d ← getDictionary reg s
      dictGetOrDefaultDispatch fname attrName key dflt d

/-! ### The type-erased entry points -/

/-- The executor selected for a declared attribute type by
`FunctionDictGetNoType::getReturnTypeImpl` (the `String` branch plus the
`FOR_DICT_TYPES(DISPATCH)` macro expansion); `none` models falling through
to the `Unknown dictGet type` throw. -/
def resolveImpl : TypeTag → Option SelectedImpl
  | .tString => some .implGetString
  | .tOther => none
  | t => some (.implGetTyped t)

/-- The executor selected by
`FunctionDictGetNoTypeOrDefault::getReturnTypeImpl`. -/
def resolveOrDefaultImpl : TypeTag → Option SelectedImpl
  | .tString => some .implGetStringOrDefault
  | .tOther => none
  | t => some (.implGetTypedOrDefault t)

/-- `FunctionDictGetNoType::getReturnTypeImpl` (lines 1190-1249): constant
name checks, argument-type checks (collapsed into `argTypesOk`), dictionary
resolution through the registry, linear scan of the attribute list by name,
and executor selection from the declared type tag.  Returns the declared
return type together with the selected implementation. -/
def dictGetNoTypeResolve (reg : DictRegistry α κ)
    (dictName attrName : NameCol) (argTypesOk : Bool) :
    Except Err (TypeTag × SelectedImpl) :=
  match dictName with
  | .nonconst => .error ⟨.ILLEGAL_TYPE_OF_ARGUMENT, "Illegal type of first argument of function dictGet, expected a const string."⟩
  | .cstr dname =>
    match attrName with
    | .nonconst => .error ⟨.ILLEGAL_TYPE_OF_ARGUMENT, "Illegal type of second argument of function dictGet, expected a const string."⟩
    | .cstr aname =>
      if argTypesOk = false then
        .error ⟨.ILLEGAL_TYPE_OF_ARGUMENT, "Illegal type of argument of function dictGet"⟩
      else do
        let d ← getDictionary reg dname
        match d.attributes.find? (fun a => a.1 == aname) with
        | none => .error ⟨.BAD_ARGUMENTS, "No such attribute \x27" ++ aname ++ "\x27"⟩
        | some (_, t) =>
          match resolveImpl t with
          | some impl => .ok (t, impl)
          | none => .error ⟨.UNKNOWN_TYPE, "Unknown dictGet type"⟩

/-- `FunctionDictGetNoTypeOrDefault::getReturnTypeImpl` (lines 1290-1347):
as above, but each selected branch additionally requires the fourth
(default) argument's type to equal the attribute's declared type. -/
def dictGetNoTypeOrDefaultResolve (reg : DictRegistry α κ)
    (dictName attrName : NameCol) (argTypesOk : Bool) (defTag : TypeTag) :
    Except Err (TypeTag × SelectedImpl) :=
  match dictName with
  | .nonconst => .error ⟨.ILLEGAL_TYPE_OF_ARGUMENT, "Illegal type of first argument of function dictGetOrDefault, expected a const string."⟩
  | .cstr dname =>
    match attrName with
    | .nonconst => .error ⟨.ILLEGAL_TYPE_OF_ARGUMENT, "Illegal type of second argument of function dictGetOrDefault, expected a const string."⟩
    | .cstr aname =>
      if argTypesOk = false then
        .error ⟨.ILLEGAL_TYPE_OF_ARGUMENT, "Illegal type of argument of function dictGetOrDefault"⟩
      else do
        let d ← getDictionary reg dname
        match d.attributes.find? (fun a => a.1 == aname) with
        | none => .error ⟨.BAD_ARGUMENTS, "No such attribute \x27" ++ aname ++ "\x27"⟩
        | some (_, t) =>
          match resolveOrDefaultImpl t with
          | some impl =>
            if defTag = t then .ok (t, impl)
            else .error ⟨.ILLEGAL_TYPE_OF_ARGUMENT, "Illegal type of fourth argument of function dictGetOrDefault"⟩
          | none => .error ⟨.UNKNOWN_TYPE, "Unknown dictGetOrDefault type"⟩

/-- A full invocation of the type-erased `dictGet`: the engine computes the
return type (which resolves the dictionary and caches the selected
implementation) and then `FunctionDictGetNoType::executeImpl` delegates to the
selected typed implementation (modelled by the parametric typed executor). -/
def dictGetNoTypeInvoke [Inhabited α] (reg : DictRegistry α κ)
    (dictName attrName : NameCol) (argTypesOk : Bool) (key : KeyCol κ)
    (dateArg : Option DateCol) (rows : Nat) : Except Err (ResCol α) := do
  let _ ← dictGetNoTypeResolve reg dictName attrName argTypesOk
  dictGetExec "dictGet" reg dictName attrName key dateArg rows

/-! ### FunctionDictGetHierarchy -/

/-- `FunctionDictGetHierarchy::executeDispatch` body after the `typeid_cast`
succeeded (lines 1426-1514): capability check, then the walker on the vector
or constant id column.  For a constant id the single resulting array is
broadcast as a constant array column (`(*array)[0]`). -/
def dictGetHierarchyBody (d : Dictionary α κ) (key : KeyCol κ) :
    Except Err HierResCol :=
  if d.hasHierarchy = false then
    .error ⟨.UNSUPPORTED_METHOD, "Dictionary does not have a hierarchy"⟩
  else
    match key with
    | .u64 ids =>
      let r := getHierarchies d.toParent ids
      .ok (.arr r.1 r.2)
    | .u64const n v =>
      let r := getHierarchies d.toParent [v]
      .ok (.constArr n r.1)
    | _ => .error ⟨.ILLEGAL_COLUMN, "Second argument of function dictGetHierarchy must be UInt64"⟩

/-- The dispatch chain of `FunctionDictGetHierarchy::executeImpl` (lines
1416-1419): only the three scalar-keyed simple backends are probed. -/
def dictGetHierarchyDispatch (d : Dictionary α κ) (key : KeyCol κ) :
    Except Err HierResCol :=
  match dispatchProbe .flat d (fun dd => dictGetHierarchyBody dd key) <|>
        dispatchProbe .hashed d (fun dd => dictGetHierarchyBody dd key) <|>
        dispatchProbe .cache d (fun dd => dictGetHierarchyBody dd key) with
  | some r => r
  | none => .error ⟨.UNKNOWN_TYPE, "Unsupported dictionary type " ++ d.typeName⟩

/-- `FunctionDictGetHierarchy::executeImpl` (lines 1400-1420). -/
def dictGetHierarchyExec (reg : DictRegistry α κ) (dictName : NameCol)
    (key : KeyCol κ) (rows : Nat) : Except Err HierResCol :=
  match dictName with
  | .nonconst => .error ⟨.ILLEGAL_COLUMN, "First argument of function dictGetHierarchy must be a constant string"⟩
  | .cstr s =>
    if rows = 0 then .ok (.arr [] [])
    else do
      let d ← getDictionary reg s
      dictGetHierarchyDispatch d key

/-! ### FunctionDictIsIn -/

/-- `FunctionDictIsIn::executeDispatch` body after the `typeid_cast`
succeeded (lines 1586-1677): capability check, then the four cardinality
shapes; the backend `isIn*` entry points are modelled from the spec as the
row-wise ancestor-membership relation. -/
def dictIsInBody (d : Dictionary α κ) (child ancestor : KeyCol κ) :
    Except Err (ResCol Bool) :=
  if d.hasHierarchy = false then
    .error ⟨.UNSUPPORTED_METHOD, "Dictionary does not have a hierarchy"⟩
  else
    match child with
    | .u64 cs =>
      match ancestor with
      | .u64 ancs => .ok (.vec (List.zipWith d.isIn cs ancs))
      | .u64const _ a => .ok (.vec (cs.map (fun c => d.isIn c a)))
      | _ => .error ⟨.ILLEGAL_COLUMN, "Illegal column of third argument of function dictIsIn"⟩
    | .u64const n c =>
      match ancestor with
      | .u64 ancs => .ok (.vec (ancs.map (fun a => d.isIn c a)))
      | .u64const _ a => .ok (.const n (d.isIn c a))
      | _ => .error ⟨.ILLEGAL_COLUMN, "Illegal column of third argument of function dictIsIn"⟩
    | _ => .error ⟨.ILLEGAL_COLUMN, "Illegal column of second argument of function dictIsIn"⟩

/-- The dispatch chain of `FunctionDictIsIn::executeImpl` (lines 1576-1579):
only the three scalar-keyed simple backends are probed. -/
def dictIsInDispatch (d : Dictionary α κ) (child ancestor : KeyCol κ) :
    Except Err (ResCol Bool) :=
  match dispatchProbe .flat d (fun dd => dictIsInBody dd child ancestor) <|>
        dispatchProbe .hashed d (fun dd => dictIsInBody dd child ancestor) <|>
        dispatchProbe .cache d (fun dd => dictIsInBody dd child ancestor) with
  | some r => r
  | none => .error ⟨.UNKNOWN_TYPE, "Unsupported dictionary type " ++ d.typeName⟩

/-- `FunctionDictIsIn::executeImpl` (lines 1560-1580). -/
def dictIsInExec (reg : DictRegistry α κ) (dictName : NameCol)
    (child ancestor : KeyCol κ) (rows : Nat) : Except Err (ResCol Bool) :=
  match dictName with
  | .nonconst => .error ⟨.ILLEGAL_COLUMN, "First argument of function dictIsIn must be a constant string"⟩
  | .cstr s =>
    if rows = 0 then .ok (.vec [])
    else do
      let d ← getDictionary reg s
      dictIsInDispatch d child ancestor

/-! ### Walker lemmas: termination and stabilization (arbitrary parent) -/

theorem pushRow_snd (r : HierRow) : (pushRow r).2 = r.2 := by
  unfold pushRow
  split <;> rfl

theorem pushRow_of_active (r : HierRow) (h : rowActiveB r = true) :
    pushRow r = (r.1 ++ [r.2], r.2) := by
  unfold pushRow
  rw [if_pos (of_decide_eq_true h)]

theorem pushRow_of_inactive (r : HierRow) (h : rowActiveB r = false) :
    pushRow r = r := by
  unfold pushRow
  rw [if_neg (of_decide_eq_false h)]

theorem pushRow_fst_length_le (r : HierRow) :
    r.1.length ≤ (pushRow r).1.length := by
  unfold pushRow
  split
  · simp
  · exact le_refl _

theorem pushRow_nodup (r : HierRow) (h : r.1.Nodup) : (pushRow r).1.Nodup := by
  unfold pushRow
  split
  · rename_i hcond
    refine List.Nodup.append h (List.nodup_singleton _) ?_
    intro a ha hmem
    rw [List.mem_singleton] at hmem
    exact hcond.2 (hmem ▸ ha)
  · exact h

theorem stepRows_length (p : DictId → DictId) (rs : List HierRow) :
    (stepRows p rs).length = rs.length := by
  simp [stepRows]

/-- The chains of every row are duplicate-free. -/
def chainsNodup (rs : List HierRow) : Prop := ∀ r ∈ rs, r.1.Nodup

theorem chainsNodup_init (ids : List DictId) : chainsNodup (initRows ids) := by
  intro r hr
  simp only [initRows, List.mem_map] at hr
  obtain ⟨x, _, rfl⟩ := hr
  exact List.nodup_nil

theorem chainsNodup_step (p : DictId → DictId) (rs : List HierRow)
    (h : chainsNodup rs) : chainsNodup (stepRows p rs) := by
  intro r hr
  simp only [stepRows, List.map_map, List.mem_map] at hr
  obtain ⟨r₀, hr₀, rfl⟩ := hr
  exact pushRow_nodup r₀ (h r₀ hr₀)

theorem chainsNodup_iterate (p : DictId → DictId) (t : Nat) (rs : List HierRow)
    (h : chainsNodup rs) : chainsNodup ((stepRows p)^[t] rs) := by
  induction t generalizing rs with
  | zero => exact h
  | succ t ih =>
    rw [Function.iterate_succ_apply]
    exact ih _ (chainsNodup_step p rs h)

/-- Total chain length across rows: the strictly increasing measure for
termination of the walker loop. -/
def chainsLen (rs : List HierRow) : Nat := (rs.map (fun r => r.1.length)).sum

theorem chainsLen_cons (r : HierRow) (rs : List HierRow) :
    chainsLen (r :: rs) = r.1.length + chainsLen rs := by
  unfold chainsLen
  rw [List.map_cons, List.sum_cons]

theorem chainsLen_init (ids : List DictId) : chainsLen (initRows ids) = 0 := by
  apply List.sum_eq_zero
  intro x hx
  simp only [initRows, List.map_map, List.mem_map] at hx
  obtain ⟨y, _, rfl⟩ := hx
  rfl

theorem nodup_chain_length_le (l : List DictId) (h : l.Nodup) :
    l.length ≤ UINT64_CARD := by
  have := h.length_le_card
  rwa [Fintype.card_fin] at this

theorem chainsLen_le (rs : List HierRow) (h : chainsNodup rs) :
    chainsLen rs ≤ rs.length * UINT64_CARD := by
  induction rs with
  | nil => simp [chainsLen]
  | cons r rs ih =>
    have h1 : r.1.length ≤ UINT64_CARD := nodup_chain_length_le _ (h r (by simp))
    have h2 := ih (fun r' hr' => h r' (by simp [hr']))
    rw [chainsLen_cons, List.length_cons, Nat.succ_mul]
    omega

theorem chainsLen_map_push_le (rs : List HierRow) :
    chainsLen rs ≤ chainsLen (rs.map pushRow) := by
  induction rs with
  | nil => simp [chainsLen]
  | cons r rs ih =>
    have h1 := pushRow_fst_length_le r
    rw [List.map_cons, chainsLen_cons, chainsLen_cons]
    omega

theorem anyActive_push_grow (rs : List HierRow) (h : anyActiveB rs = true) :
    chainsLen rs + 1 ≤ chainsLen (rs.map pushRow) := by
  induction rs with
  | nil => simp [anyActiveB] at h
  | cons r rs ih =>
    rw [anyActiveB, List.any_cons] at h
    rw [List.map_cons, chainsLen_cons, chainsLen_cons]
    rcases Bool.or_eq_true_iff.mp h with hr | hrs
    · have hpr : (pushRow r).1.length = r.1.length + 1 := by
        rw [pushRow_of_active r hr]
        simp
      have h2 := chainsLen_map_push_le rs
      omega
    · have h2 := ih hrs
      have h3 := pushRow_fst_length_le r
      omega

theorem active_chainsLen_lt (rs : List HierRow) (hn : chainsNodup rs)
    (h : anyActiveB rs = true) : chainsLen rs + 1 ≤ rs.length * UINT64_CARD := by
  induction rs with
  | nil => simp [anyActiveB] at h
  | cons r rs ih =>
    rw [anyActiveB, List.any_cons] at h
    have htail : chainsLen rs ≤ rs.length * UINT64_CARD :=
      chainsLen_le rs (fun r' hr' => hn r' (by simp [hr']))
    rw [chainsLen_cons, List.length_cons, Nat.succ_mul]
    rcases Bool.or_eq_true_iff.mp h with hr | hrs
    · have hcond := of_decide_eq_true hr
      have hnodup : (r.2 :: r.1).Nodup := List.nodup_cons.mpr ⟨hcond.2, hn r (by simp)⟩
      have h1 : r.1.length + 1 ≤ UINT64_CARD := by
        have := nodup_chain_length_le _ hnodup
        simpa using this
      omega
    · have h1 : r.1.length ≤ UINT64_CARD := nodup_chain_length_le _ (hn r (by simp))
      have h2 := ih (fun r' hr' => hn r' (by simp [hr'])) hrs
      omega

theorem chainsLen_stepRows (p : DictId → DictId) (rs : List HierRow) :
    chainsLen (stepRows p rs) = chainsLen (rs.map pushRow) := by
  simp only [chainsLen, stepRows, List.map_map]
  rfl

theorem exists_inactive_aux (p : DictId → DictId) :
    ∀ (k : Nat) (rs : List HierRow), chainsNodup rs →
      rs.length * UINT64_CARD ≤ chainsLen rs + k →
      ∃ m ≤ k, anyActiveB ((stepRows p)^[m] rs) = false := by
  intro k
  induction k with
  | zero =>
    intro rs hn hle
    refine ⟨0, le_refl _, ?_⟩
    rw [Function.iterate_zero_apply]
    cases h : anyActiveB rs with
    | false => rfl
    | true =>
      have := active_chainsLen_lt rs hn h
      omega
  | succ k ih =>
    intro rs hn hle
    cases hact : anyActiveB rs with
    | false => exact ⟨0, Nat.zero_le _, by rw [Function.iterate_zero_apply]; exact hact⟩
    | true =>
      have h1 := anyActive_push_grow rs hact
      have h2 := stepRows_length p rs
      have h3 := chainsLen_stepRows p rs
      have hle' : (stepRows p rs).length * UINT64_CARD ≤ chainsLen (stepRows p rs) + k := by
        rw [h2, h3]
        omega
      obtain ⟨m, hm, hin⟩ := ih (stepRows p rs) (chainsNodup_step p rs hn) hle'
      exact ⟨m + 1, Nat.succ_le_succ hm, by rw [Function.iterate_succ_apply]; exact hin⟩

theorem walker_terminates (p : DictId → DictId) (ids : List DictId) :
    ∃ m ≤ ids.length * UINT64_CARD, anyActiveB (stateAt p ids m) = false := by
  have hlen : (initRows ids).length = ids.length := by simp [initRows]
  have := exists_inactive_aux p (ids.length * UINT64_CARD) (initRows ids)
    (chainsNodup_init ids) (by rw [hlen, chainsLen_init]; omega)
  obtain ⟨m, hm, hin⟩ := this
  exact ⟨m, hm, hin⟩

theorem hierLoop_eq_iterate (p : DictId → DictId) :
    ∀ (m : Nat) (rs : List HierRow) (fuel : Nat),
      (∀ t, t < m → anyActiveB ((stepRows p)^[t] rs) = true) →
      anyActiveB ((stepRows p)^[m] rs) = false → m ≤ fuel →
      hierLoop p fuel rs = (stepRows p)^[m] rs := by
  intro m
  induction m with
  | zero =>
    intro rs fuel _ hin _
    rw [Function.iterate_zero_apply] at hin ⊢
    cases fuel with
    | zero => rfl
    | succ f => simp [hierLoop, hin]
  | succ m ih =>
    intro rs fuel hact hin hf
    have h0 : anyActiveB rs = true := by
      have := hact 0 (Nat.succ_pos m)
      rwa [Function.iterate_zero_apply] at this
    cases fuel with
    | zero => omega
    | succ f =>
      have hstep : hierLoop p (f + 1) rs = hierLoop p f (stepRows p rs) := by
        simp [hierLoop, h0]
      rw [hstep]
      have hact' : ∀ t, t < m → anyActiveB ((stepRows p)^[t] (stepRows p rs)) = true := by
        intro t ht
        rw [← Function.iterate_succ_apply]
        exact hact (t + 1) (Nat.succ_lt_succ ht)
      have hin' : anyActiveB ((stepRows p)^[m] (stepRows p rs)) = false := by
        rw [← Function.iterate_succ_apply]
        exact hin
      rw [ih (stepRows p rs) f hact' hin' (Nat.le_of_succ_le_succ hf),
        ← Function.iterate_succ_apply]

theorem stateAt_eq_map (p : DictId → DictId) (ids : List DictId) (t : Nat) :
    stateAt p ids t = ids.map (fun x => rowState p t x) := by
  induction t with
  | zero =>
    simp [stateAt, initRows, rowState]
  | succ t ih =>
    rw [stateAt, Function.iterate_succ_apply', ← stateAt, ih]
    simp only [stepRows, List.map_map]
    apply List.map_congr_left
    intro x _
    simp [rowState, Function.iterate_succ_apply', rowStep, Function.comp]

/-! ### Per-row walker invariants and the cycle-truncation property -/

theorem rowState_succ (p : DictId → DictId) (t : Nat) (x : DictId) :
    rowState p (t + 1) x = rowStep p (rowState p t x) := by
  simp [rowState, Function.iterate_succ_apply']

theorem rowStep_snd (p : DictId → DictId) (r : HierRow) :
    (rowStep p r).2 = p r.2 := by
  simp [rowStep, advanceRow, pushRow_snd]

theorem rowState_cur (p : DictId → DictId) (t : Nat) (x : DictId) :
    (rowState p t x).2 = p^[t] x := by
  induction t with
  | zero => rfl
  | succ t ih =>
    rw [rowState_succ, rowStep_snd, ih, Function.iterate_succ_apply']

theorem chain_subset_rowStep (p : DictId → DictId) (r : HierRow) :
    r.1 ⊆ (rowStep p r).1 := by
  simp only [rowStep, advanceRow]
  unfold pushRow
  split
  · intro a ha
    exact List.mem_append_left _ ha
  · exact fun a ha => ha

theorem rowState_chain_mono (p : DictId → DictId) (x : DictId) :
    ∀ t t', t ≤ t' → (rowState p t x).1 ⊆ (rowState p t' x).1 := by
  intro t t' h
  induction t', h using Nat.le_induction with
  | base => exact fun a ha => ha
  | succ t' h ih =>
    rw [rowState_succ]
    exact fun a ha => chain_subset_rowStep p _ (ih ha)

theorem rowState_chain_orbit (p : DictId → DictId) (x : DictId) :
    ∀ t, ∀ y ∈ (rowState p t x).1, ∃ j, j < t ∧ y = p^[j] x := by
  intro t
  induction t with
  | zero =>
    intro y hy
    simp [rowState] at hy
  | succ t ih =>
    intro y hy
    rw [rowState_succ] at hy
    simp only [rowStep, advanceRow] at hy
    by_cases hc : (rowState p t x).2 ≠ 0 ∧ (rowState p t x).2 ∉ (rowState p t x).1
    · unfold pushRow at hy
      rw [if_pos hc] at hy
      rcases List.mem_append.mp hy with h1 | h2
      · obtain ⟨j, hj, he⟩ := ih y h1
        exact ⟨j, Nat.lt_succ_of_lt hj, he⟩
      · rw [List.mem_singleton] at h2
        exact ⟨t, Nat.lt_succ_self t, by rw [h2, rowState_cur]⟩
    · unfold pushRow at hy
      rw [if_neg hc] at hy
      obtain ⟨j, hj, he⟩ := ih y hy
      exact ⟨j, Nat.lt_succ_of_lt hj, he⟩

theorem orbit_mem_chain (p : DictId → DictId) (x : DictId) :
    ∀ t j, j < t → p^[j] x ≠ 0 → p^[j] x ∈ (rowState p t x).1 := by
  intro t
  induction t with
  | zero =>
    intro j hj hne
    exact absurd hj (Nat.not_lt_zero j)
  | succ t ih =>
    intro j hj hne
    rcases Nat.lt_succ_iff_lt_or_eq.mp hj with hlt | rfl
    · exact rowState_chain_mono p x t (t + 1) (Nat.le_succ t) (ih j hlt hne)
    · rw [rowState_succ]
      simp only [rowStep, advanceRow]
      by_cases hmem : p^[j] x ∈ (rowState p j x).1
      · unfold pushRow
        split
        · exact List.mem_append_left _ hmem
        · exact hmem
      · have hc : (rowState p j x).2 ≠ 0 ∧ (rowState p j x).2 ∉ (rowState p j x).1 := by
          rw [rowState_cur]
          exact ⟨hne, hmem⟩
        unfold pushRow
        rw [if_pos hc]
        apply List.mem_append_right
        rw [rowState_cur]
        exact List.mem_singleton_self _

theorem iterate_mod_cycle {β : Type} (f : β → β) (y : β) (c : Nat) (hc : 0 < c)
    (hy : f^[c] y = y) : ∀ m, f^[m] y = f^[m % c] y := by
  intro m
  induction m using Nat.strong_induction_on with
  | _ m ih =>
    by_cases hm : m < c
    · rw [Nat.mod_eq_of_lt hm]
    · push_neg at hm
      have h1 : m - c + c = m := Nat.sub_add_cancel hm
      have h2 : f^[m] y = f^[m - c] y := by
        conv_lhs => rw [← h1]
        rw [Function.iterate_add_apply, hy]
      rw [h2, ih (m - c) (by omega), Nat.mod_eq_sub_mod hm]

theorem rowState_freeze (p : DictId → DictId) (x : DictId) :
    ∀ t t', t ≤ t' → (rowState p t x).2 ∈ (rowState p t x).1 →
      (rowState p t' x).1 = (rowState p t x).1 := by
  intro t t' htt hmem
  obtain ⟨j, hj, hje⟩ := rowState_chain_orbit p x t _ hmem
  have hcyc0 : p^[t] x = p^[j] x := by
    rw [← rowState_cur p t x, hje]
  have hc : 0 < t - j := by omega
  have hcyc : p^[t - j] (p^[j] x) = p^[j] x := by
    rw [← Function.iterate_add_apply]
    have he : t - j + j = t := by omega
    rw [he, hcyc0]
  have horb : ∀ s, t ≤ s → ∃ i, i < t ∧ p^[s] x = p^[i] x := by
    intro s hs
    have h1 : p^[s] x = p^[s - j] (p^[j] x) := by
      rw [← Function.iterate_add_apply]
      congr 1
      omega
    have h2 := iterate_mod_cycle p (p^[j] x) (t - j) hc hcyc (s - j)
    refine ⟨j + (s - j) % (t - j), ?_, ?_⟩
    · have := Nat.mod_lt (s - j) hc
      omega
    · rw [h1, h2, Nat.add_comm j ((s - j) % (t - j)), Function.iterate_add_apply]
  have hstay : ∀ s, t ≤ s → (rowState p s x).1 = (rowState p t x).1 := by
    intro s hs
    induction s, hs using Nat.le_induction with
    | base => rfl
    | succ s hs ih =>
      rw [rowState_succ]
      simp only [rowStep, advanceRow]
      have hnopush : ¬((rowState p s x).2 ≠ 0 ∧ (rowState p s x).2 ∉ (rowState p s x).1) := by
        rw [rowState_cur]
        obtain ⟨i, hi, hiq⟩ := horb s hs
        rw [hiq]
        by_cases hz : p^[i] x = 0
        · exact fun hcon => hcon.1 hz
        · intro hcon
          apply hcon.2
          rw [ih]
          exact orbit_mem_chain p x t i hi hz
      unfold pushRow
      rw [if_neg hnopush]
      exact ih
  exact hstay t' htt

/-! ### Spec chain characterization under an acyclic parent relation -/

theorem specChainF_succ (p : DictId → DictId) (f : Nat) (x : DictId) :
    specChainF p (f + 1) x = if x = 0 then [] else x :: specChainF p f (p x) := rfl

theorem specChainF_sentinel (p : DictId → DictId) :
    ∀ f, specChainF p f 0 = [] := by
  intro f
  cases f with
  | zero => rfl
  | succ f => rw [specChainF_succ]; simp

theorem specChain_zero (p : DictId → DictId) : specChain p 0 = [] :=
  specChainF_sentinel p _

theorem orbit_of_zero (p : DictId → DictId) (hp0 : p 0 = 0) :
    ∀ s, p^[s] (0 : DictId) = 0 := by
  intro s
  induction s with
  | zero => rfl
  | succ s ih => rw [Function.iterate_succ_apply', ih, hp0]

theorem orbit_reaches_zero (p : DictId → DictId)
    (hacyc : ∀ x : DictId, x ≠ 0 → ∀ k, 0 < k → p^[k] x ≠ x) :
    ∀ x : DictId, ∃ k, k ≤ UINT64_CARD ∧ p^[k] x = 0 := by
  intro x
  have hcard : Fintype.card DictId < Fintype.card (Fin (UINT64_CARD + 1)) := by
    simp only [Fintype.card_fin]
    omega
  obtain ⟨a, b, hab, heq⟩ := Fintype.exists_ne_map_eq_of_card_lt
    (fun i : Fin (UINT64_CARD + 1) => p^[i.val] x) hcard
  have hv : a.val ≠ b.val := fun h => hab (Fin.val_injective h)
  obtain ⟨i, j, hij, hj, hpe⟩ :
      ∃ i j : Nat, i < j ∧ j ≤ UINT64_CARD ∧ p^[i] x = p^[j] x := by
    rcases Nat.lt_or_ge a.val b.val with h | h
    · exact ⟨a.val, b.val, h, Nat.lt_succ_iff.mp b.isLt, heq⟩
    · have h' : b.val < a.val := by omega
      exact ⟨b.val, a.val, h', Nat.lt_succ_iff.mp a.isLt, heq.symm⟩
  by_cases hz : ∃ t, t < j ∧ p^[t] x = 0
  · obtain ⟨t, ht, h0⟩ := hz
    exact ⟨t, by omega, h0⟩
  · push_neg at hz
    exfalso
    have hi0 : p^[i] x ≠ 0 := hz i hij
    have hcy : p^[j - i] (p^[i] x) = p^[i] x := by
      rw [← Function.iterate_add_apply]
      have he : j - i + i = j := by omega
      rw [he]
      exact hpe.symm
    exact hacyc _ hi0 (j - i) (by omega) hcy

theorem specChainF_stable (p : DictId → DictId) :
    ∀ (k : Nat) (x : DictId) (f₁ f₂ : Nat), p^[k] x = 0 → k ≤ f₁ → k ≤ f₂ →
      specChainF p f₁ x = specChainF p f₂ x := by
  intro k
  induction k with
  | zero =>
    intro x f₁ f₂ h0 _ _
    rw [Function.iterate_zero_apply] at h0
    subst h0
    rw [specChainF_sentinel, specChainF_sentinel]
  | succ k ih =>
    intro x f₁ f₂ h0 h1 h2
    by_cases hx : x = 0
    · subst hx
      rw [specChainF_sentinel, specChainF_sentinel]
    · cases f₁ with
      | zero => omega
      | succ a =>
        cases f₂ with
        | zero => omega
        | succ b =>
          rw [specChainF_succ, specChainF_succ, if_neg hx, if_neg hx]
          congr 1
          exact ih (p x) a b (by rw [← Function.iterate_succ_apply]; exact h0)
            (by omega) (by omega)

theorem specChain_eq (p : DictId → DictId)
    (hacyc : ∀ x : DictId, x ≠ 0 → ∀ k, 0 < k → p^[k] x ≠ x) (x : DictId) :
    specChain p x = if x = 0 then [] else x :: specChain p (p x) := by
  by_cases hx : x = 0
  · rw [if_pos hx, hx, specChain_zero]
  · rw [if_neg hx]
    obtain ⟨k, hk, h0⟩ := orbit_reaches_zero p hacyc (p x)
    have hs := specChainF_stable p k (p x) UINT64_CARD (UINT64_CARD + 1) h0 hk (by omega)
    show specChainF p (UINT64_CARD + 1) x = x :: specChainF p (UINT64_CARD + 1) (p x)
    rw [specChainF_succ, if_neg hx, hs]

theorem specChain_ne_zero_cons (p : DictId → DictId)
    (hacyc : ∀ x : DictId, x ≠ 0 → ∀ k, 0 < k → p^[k] x ≠ x) (x : DictId)
    (hx : x ≠ 0) : specChain p x = x :: specChain p (p x) := by
  rw [specChain_eq p hacyc x, if_neg hx]

theorem orbit_ne_zero_of_lt_len (p : DictId → DictId)
    (hacyc : ∀ x : DictId, x ≠ 0 → ∀ k, 0 < k → p^[k] x ≠ x) :
    ∀ t x, t < (specChain p x).length → p^[t] x ≠ 0 := by
  intro t
  induction t with
  | zero =>
    intro x h
    rw [Function.iterate_zero_apply]
    intro hx
    rw [hx, specChain_zero] at h
    simp at h
  | succ t ih =>
    intro x h
    have hx : x ≠ 0 := by
      intro hx
      rw [hx, specChain_zero] at h
      simp at h
    rw [specChain_ne_zero_cons p hacyc x hx, List.length_cons] at h
    rw [Function.iterate_succ_apply]
    exact ih (p x) (by omega)

theorem specChain_take_succ (p : DictId → DictId)
    (hacyc : ∀ x : DictId, x ≠ 0 → ∀ k, 0 < k → p^[k] x ≠ x) :
    ∀ t x, t < (specChain p x).length →
      (specChain p x).take (t + 1) = (specChain p x).take t ++ [p^[t] x] := by
  intro t
  induction t with
  | zero =>
    intro x h
    have hx : x ≠ 0 := by
      intro hx
      rw [hx, specChain_zero] at h
      simp at h
    rw [specChain_ne_zero_cons p hacyc x hx]
    simp
  | succ t ih =>
    intro x h
    have hx : x ≠ 0 := by
      intro hx
      rw [hx, specChain_zero] at h
      simp at h
    rw [specChain_ne_zero_cons p hacyc x hx] at h ⊢
    rw [List.length_cons] at h
    rw [List.take_succ_cons, List.take_succ_cons, ih (p x) (by omega)]
    rw [Function.iterate_succ_apply]
    simp

theorem orbit_zero_of_len_le (p : DictId → DictId) (hp0 : p 0 = 0)
    (hacyc : ∀ x : DictId, x ≠ 0 → ∀ k, 0 < k → p^[k] x ≠ x) :
    ∀ t x, (specChain p x).length ≤ t → p^[t] x = 0 := by
  intro t
  induction t with
  | zero =>
    intro x h
    rw [Function.iterate_zero_apply]
    by_contra hx
    rw [specChain_ne_zero_cons p hacyc x hx] at h
    simp at h
  | succ t ih =>
    intro x h
    by_cases hx : x = 0
    · rw [hx]
      exact orbit_of_zero p hp0 (t + 1)
    · rw [specChain_ne_zero_cons p hacyc x hx, List.length_cons] at h
      rw [Function.iterate_succ_apply]
      exact ih (p x) (by omega)

theorem specChain_mem_orbit (p : DictId → DictId)
    (hacyc : ∀ x : DictId, x ≠ 0 → ∀ k, 0 < k → p^[k] x ≠ x) :
    ∀ (k : Nat) (x : DictId), p^[k] x = 0 →
      ∀ y ∈ specChain p x, ∃ s, s < (specChain p x).length ∧ y = p^[s] x := by
  intro k
  induction k with
  | zero =>
    intro x h0 y hy
    rw [Function.iterate_zero_apply] at h0
    rw [h0, specChain_zero] at hy
    simp at hy
  | succ k ih =>
    intro x h0 y hy
    by_cases hx : x = 0
    · rw [hx, specChain_zero] at hy
      simp at hy
    · rw [specChain_ne_zero_cons p hacyc x hx] at hy
      rw [specChain_ne_zero_cons p hacyc x hx, List.length_cons]
      rcases List.mem_cons.mp hy with rfl | hmem
      · exact ⟨0, by omega, by rw [Function.iterate_zero_apply]⟩
      · have h0' : p^[k] (p x) = 0 := by
          rw [← Function.iterate_succ_apply]
          exact h0
        obtain ⟨s, hs, he⟩ := ih (p x) h0' y hmem
        exact ⟨s + 1, by omega, by rw [Function.iterate_succ_apply]; exact he⟩

theorem specChain_nodup_aux (p : DictId → DictId)
    (hacyc : ∀ x : DictId, x ≠ 0 → ∀ k, 0 < k → p^[k] x ≠ x) :
    ∀ (k : Nat) (x : DictId), p^[k] x = 0 → (specChain p x).Nodup := by
  intro k
  induction k with
  | zero =>
    intro x h0
    rw [Function.iterate_zero_apply] at h0
    rw [h0, specChain_zero]
    exact List.nodup_nil
  | succ k ih =>
    intro x h0
    by_cases hx : x = 0
    · rw [hx, specChain_zero]
      exact List.nodup_nil
    · rw [specChain_ne_zero_cons p hacyc x hx]
      have h0' : p^[k] (p x) = 0 := by
        rw [← Function.iterate_succ_apply]
        exact h0
      refine List.nodup_cons.mpr ⟨?_, ih (p x) h0'⟩
      intro hmem
      obtain ⟨s, _, he⟩ := specChain_mem_orbit p hacyc k (p x) h0' x hmem
      have hcy : p^[s + 1] x = x := by
        rw [Function.iterate_succ_apply]
        exact he.symm
      exact hacyc x hx (s + 1) (Nat.succ_pos s) hcy

theorem specChain_nodup (p : DictId → DictId)
    (hacyc : ∀ x : DictId, x ≠ 0 → ∀ k, 0 < k → p^[k] x ≠ x) (x : DictId) :
    (specChain p x).Nodup := by
  obtain ⟨k, _, h0⟩ := orbit_reaches_zero p hacyc x
  exact specChain_nodup_aux p hacyc k x h0

theorem orbit_not_mem_take (p : DictId → DictId)
    (hacyc : ∀ x : DictId, x ≠ 0 → ∀ k, 0 < k → p^[k] x ≠ x) (t : Nat)
    (x : DictId) (h : t < (specChain p x).length) :
    p^[t] x ∉ (specChain p x).take t := by
  intro hmem
  have h1 := specChain_take_succ p hacyc t x h
  have h2 : ((specChain p x).take (t + 1)).Nodup :=
    List.Nodup.sublist (List.take_sublist _ _) (specChain_nodup p hacyc x)
  rw [h1, List.nodup_append] at h2
  exact h2.2.2 hmem (List.mem_singleton_self _)

/-! ### Batch walker equals the per-row spec chains (acyclic relation) -/

theorem rowState_eq_spec (p : DictId → DictId) (hp0 : p 0 = 0)
    (hacyc : ∀ x : DictId, x ≠ 0 → ∀ k, 0 < k → p^[k] x ≠ x) :
    ∀ t x, rowState p t x = ((specChain p x).take t, p^[t] x) := by
  intro t x
  induction t with
  | zero => simp [rowState]
  | succ t ih =>
    rw [rowState_succ, ih]
    simp only [rowStep, advanceRow]
    by_cases hlt : t < (specChain p x).length
    · have h1 := orbit_ne_zero_of_lt_len p hacyc t x hlt
      have h2 := orbit_not_mem_take p hacyc t x hlt
      have hcond : (((specChain p x).take t, p^[t] x) : HierRow).2 ≠ 0 ∧
          (((specChain p x).take t, p^[t] x) : HierRow).2 ∉
            (((specChain p x).take t, p^[t] x) : HierRow).1 := ⟨h1, h2⟩
      unfold pushRow
      rw [if_pos hcond]
      rw [specChain_take_succ p hacyc t x hlt, Function.iterate_succ_apply']
    · push_neg at hlt
      have h0 := orbit_zero_of_len_le p hp0 hacyc t x hlt
      have hcond : ¬((((specChain p x).take t, p^[t] x) : HierRow).2 ≠ 0 ∧
          (((specChain p x).take t, p^[t] x) : HierRow).2 ∉
            (((specChain p x).take t, p^[t] x) : HierRow).1) :=
        fun hcon => hcon.1 h0
      unfold pushRow
      rw [if_neg hcond]
      have htake : (specChain p x).take t = specChain p x :=
        List.take_of_length_le hlt
      have htake' : (specChain p x).take (t + 1) = specChain p x :=
        List.take_of_length_le (by omega)
      have h0' : p^[t + 1] x = 0 := orbit_zero_of_len_le p hp0 hacyc (t + 1) x (by omega)
      rw [htake, htake', h0, h0', hp0]

theorem rowActive_spec (p : DictId → DictId) (hp0 : p 0 = 0)
    (hacyc : ∀ x : DictId, x ≠ 0 → ∀ k, 0 < k → p^[k] x ≠ x) (t : Nat)
    (x : DictId) :
    rowActiveB (rowState p t x) = decide (t < (specChain p x).length) := by
  rw [rowState_eq_spec p hp0 hacyc t x]
  by_cases hlt : t < (specChain p x).length
  · have h1 := orbit_ne_zero_of_lt_len p hacyc t x hlt
    have h2 := orbit_not_mem_take p hacyc t x hlt
    simp [rowActiveB, h1, h2, hlt]
  · push_neg at hlt
    have h0 := orbit_zero_of_len_le p hp0 hacyc t x hlt
    simp [rowActiveB, h0, show ¬(t < (specChain p x).length) from not_lt.mpr hlt]

theorem anyActive_stateAt_iff (p : DictId → DictId) (hp0 : p 0 = 0)
    (hacyc : ∀ x : DictId, x ≠ 0 → ∀ k, 0 < k → p^[k] x ≠ x)
    (ids : List DictId) (t : Nat) :
    anyActiveB (stateAt p ids t) = true ↔
      ∃ x ∈ ids, t < (specChain p x).length := by
  rw [stateAt_eq_map, anyActiveB, List.any_eq_true]
  constructor
  · rintro ⟨r, hr, hact⟩
    obtain ⟨x, hx, rfl⟩ := List.mem_map.mp hr
    rw [rowActive_spec p hp0 hacyc t x] at hact
    exact ⟨x, hx, of_decide_eq_true hact⟩
  · rintro ⟨x, hx, hlt⟩
    refine ⟨rowState p t x, List.mem_map_of_mem _ hx, ?_⟩
    rw [rowActive_spec p hp0 hacyc t x]
    exact decide_eq_true hlt

theorem le_foldr_max (l : List Nat) : ∀ a ∈ l, a ≤ l.foldr max 0 := by
  induction l with
  | nil =>
    intro a ha
    simp at ha
  | cons b l ih =>
    intro a ha
    rcases List.mem_cons.mp ha with rfl | h
    · exact le_max_left _ _
    · exact le_trans (ih a h) (le_max_right _ _)

theorem foldr_max_cases (l : List Nat) :
    l.foldr max 0 = 0 ∨ ∃ a ∈ l, l.foldr max 0 = a := by
  induction l with
  | nil => left; rfl
  | cons b l ih =>
    rcases ih with h0 | ⟨a, ha, he⟩
    · right
      refine ⟨b, by simp, ?_⟩
      rw [List.foldr_cons, h0, Nat.max_zero]
    · rcases max_choice b (l.foldr max 0) with h | h
      · right
        exact ⟨b, by simp, by rw [List.foldr_cons]; exact h⟩
      · right
        exact ⟨a, List.mem_cons_of_mem b ha, by rw [List.foldr_cons, h, he]⟩

theorem hierChains_eq_spec (p : DictId → DictId) (hp0 : p 0 = 0)
    (hacyc : ∀ x : DictId, x ≠ 0 → ∀ k, 0 < k → p^[k] x ≠ x)
    (ids : List DictId) :
    hierChains p (FUEL ids.length) ids = ids.map (specChain p) := by
  set T := (ids.map fun x => (specChain p x).length).foldr max 0 with hT
  have hTle : ∀ x ∈ ids, (specChain p x).length ≤ T :=
    fun x hx => le_foldr_max _ _ (List.mem_map_of_mem _ hx)
  have hin : anyActiveB (stateAt p ids T) = false := by
    cases h : anyActiveB (stateAt p ids T) with
    | false => rfl
    | true =>
      obtain ⟨x, hx, hlt⟩ := (anyActive_stateAt_iff p hp0 hacyc ids T).mp h
      exact absurd hlt (not_lt.mpr (hTle x hx))
  have hact : ∀ t, t < T → anyActiveB (stateAt p ids t) = true := by
    intro t ht
    rcases foldr_max_cases (ids.map fun x => (specChain p x).length) with h0 | ⟨a, ha, he⟩
    · rw [← hT] at h0
      omega
    · obtain ⟨x, hx, rfl⟩ := List.mem_map.mp ha
      refine (anyActive_stateAt_iff p hp0 hacyc ids t).mpr ⟨x, hx, ?_⟩
      rw [← hT] at he
      omega
  have hTb : T ≤ ids.length * UINT64_CARD := by
    rcases foldr_max_cases (ids.map fun x => (specChain p x).length) with h0 | ⟨a, ha, he⟩
    · rw [← hT] at h0
      omega
    · obtain ⟨x, hx, rfl⟩ := List.mem_map.mp ha
      rw [← hT] at he
      have h1 : (specChain p x).length ≤ UINT64_CARD :=
        nodup_chain_length_le _ (specChain_nodup p hacyc x)
      have h2 : 1 ≤ ids.length := List.length_pos.mpr (List.ne_nil_of_mem hx)
      have h3 : UINT64_CARD ≤ ids.length * UINT64_CARD := by
        calc UINT64_CARD = 1 * UINT64_CARD := (Nat.one_mul _).symm
        _ ≤ ids.length * UINT64_CARD := Nat.mul_le_mul_right _ h2
      omega
  have hloop := hierLoop_eq_iterate p T (initRows ids) (FUEL ids.length) hact hin
    (by unfold FUEL; omega)
  unfold hierChains
  rw [hloop]
  rw [show (stepRows p)^[T] (initRows ids) = stateAt p ids T from rfl, stateAt_eq_map]
  rw [List.map_map]
  apply List.map_congr_left
  intro x hx
  simp only [Function.comp]
  rw [rowState_eq_spec p hp0 hacyc T x]
  show (specChain p x).take T = specChain p x
  exact List.take_of_length_le (hTle x hx)

theorem flattenAux_eq :
    ∀ (cs : List (List DictId)) (acc : List DictId) (offs : List Nat),
      flattenAux acc offs cs =
        (acc ++ cs.flatten, offs ++ cumSums acc.length (cs.map List.length)) := by
  intro cs
  induction cs with
  | nil =>
    intro acc offs
    simp [flattenAux, cumSums]
  | cons c cs ih =>
    intro acc offs
    rw [show flattenAux acc offs (c :: cs) =
      flattenAux (acc ++ c) (offs ++ [acc.length + c.length]) cs from rfl]
    rw [ih]
    refine Prod.ext ?_ ?_
    · simp [List.append_assoc]
    · rw [show cumSums acc.length ((c :: cs).map List.length) =
        (acc.length + c.length) :: cumSums (acc.length + c.length) (cs.map List.length) from rfl]
      rw [List.length_append]
      simp [List.append_assoc]

theorem flattenChains_eq (cs : List (List DictId)) :
    flattenChains cs = (cs.flatten, cumSums 0 (cs.map List.length)) := by
  have h := flattenAux_eq cs [] []
  simpa [flattenChains] using h

/-! ### Claim theorems for the hierarchy walker -/

/-- C1: for every input id sequence and every parent relation (including
cyclic ones), the hierarchy walk in `dictGetHierarchy` terminates (the result
is unchanged by any extra fuel beyond the chosen bound), no row's output
chain contains a repeated id, a row's chain is truncated at the first id
that would repeat (once the current id repeats an id already in the chain,
the chain never grows again), and for the two-cycle `parent(5)=7,
parent(7)=5` the walk yields exactly `[5, 7]`. -/
theorem dictGetHierarchy_walk_terminates :
    ∀ (p : DictId → DictId) (ids : List DictId),
      (∀ k : Nat, hierChains p (FUEL ids.length + k) ids =
        hierChains p (FUEL ids.length) ids)
      ∧ (∀ c ∈ hierChains p (FUEL ids.length) ids, c.Nodup)
      ∧ (∀ (x : DictId) (t t' : Nat), t ≤ t' →
          (rowState p t x).2 ∈ (rowState p t x).1 →
          (rowState p t' x).1 = (rowState p t x).1)
      ∧ hierChains twoCycleParent (FUEL 1) [(5 : DictId)] = [[5, 7]] := by
  intro p ids
  obtain ⟨m₀, hm₀, hin₀⟩ := walker_terminates p ids
  have hex : ∃ t, anyActiveB (stateAt p ids t) = false := ⟨m₀, hin₀⟩
  have hin := Nat.find_spec hex
  have hact : ∀ t, t < Nat.find hex → anyActiveB (stateAt p ids t) = true := by
    intro t ht
    cases h : anyActiveB (stateAt p ids t) with
    | false => exact absurd h (Nat.find_min hex ht)
    | true => rfl
  have hmle : Nat.find hex ≤ ids.length * UINT64_CARD :=
    le_trans (Nat.find_min' hex hin₀) hm₀
  refine ⟨?_, ?_, ?_, ?_⟩
  · intro k
    unfold hierChains
    rw [hierLoop_eq_iterate p (Nat.find hex) (initRows ids) (FUEL ids.length + k)
        hact hin (by unfold FUEL; omega),
      hierLoop_eq_iterate p (Nat.find hex) (initRows ids) (FUEL ids.length)
        hact hin (by unfold FUEL; omega)]
  · intro c hc
    unfold hierChains at hc
    rw [hierLoop_eq_iterate p (Nat.find hex) (initRows ids) (FUEL ids.length)
        hact hin (by unfold FUEL; omega)] at hc
    obtain ⟨r, hr, rfl⟩ := List.mem_map.mp hc
    exact chainsNodup_iterate p (Nat.find hex) (initRows ids) (chainsNodup_init ids) r hr
  · exact fun x t t' htt hmem => rowState_freeze p x t t' htt hmem
  · have h1 : ∀ t, t < 2 → anyActiveB (stateAt twoCycleParent [(5 : DictId)] t) = true := by
      decide
    have h2 : anyActiveB (stateAt twoCycleParent [(5 : DictId)] 2) = false := by decide
    have hle : (2 : Nat) ≤ FUEL 1 := by
      unfold FUEL
      have h := Nat.one_le_iff_ne_zero.mpr (NeZero.ne UINT64_CARD)
      omega
    unfold hierChains
    rw [hierLoop_eq_iterate twoCycleParent 2 (initRows [(5 : DictId)]) (FUEL 1) h1 h2 hle]
    decide

/-- Witness for C1 at the two-cycle relation: the chain `[5, 7]` is frozen
from the round its current id first repeats. -/
theorem dictGetHierarchy_walk_terminates_witness :
    ((2 : Nat) ≤ 7 ∧
      (rowState twoCycleParent 2 (5 : DictId)).2 ∈ (rowState twoCycleParent 2 (5 : DictId)).1)
    ∧ (rowState twoCycleParent 7 (5 : DictId)).1 = (rowState twoCycleParent 2 (5 : DictId)).1 :=
  ⟨⟨by decide, by decide⟩,
   (dictGetHierarchy_walk_terminates twoCycleParent []).2.2.1 5 2 7 (by decide) (by decide)⟩

/-- An everywhere-decreasing parent relation (with absorbing sentinel) has no
non-trivial cycles. -/
theorem acyclic_of_parent_lt (p : DictId → DictId) (hp0 : p 0 = 0)
    (hlt : ∀ y : DictId, y ≠ 0 → p y < y) :
    ∀ x : DictId, x ≠ 0 → ∀ k, 0 < k → p^[k] x ≠ x := by
  have haux : ∀ k x, x ≠ 0 → 0 < k → (p^[k] x < x ∨ p^[k] x = 0) := by
    intro k
    induction k with
    | zero =>
      intro x _ h0
      exact absurd h0 (lt_irrefl 0)
    | succ k ih =>
      intro x hx _
      by_cases hk0 : k = 0
      · subst hk0
        have h1 : p^[1] x = p x := by rw [Function.iterate_one]
        left
        rw [h1]
        exact hlt x hx
      · have hy := ih x hx (by omega)
        rw [Function.iterate_succ_apply']
        rcases hy with hlt' | h0'
        · by_cases hz : p^[k] x = 0
          · rw [hz, hp0]
            right
            rfl
          · left
            exact lt_trans (hlt _ hz) hlt'
        · rw [h0', hp0]
          right
          rfl
  intro x hx k hk
  rcases haux k x hx hk with h | h
  · exact ne_of_lt h
  · rw [h]
    intro he
    exact hx he.symm

theorem geoParent_sentinel : geoParent 0 = 0 := by decide

theorem geoParent_acyclic :
    ∀ x : DictId, x ≠ 0 → ∀ k, 0 < k → geoParent^[k] x ≠ x := by
  apply acyclic_of_parent_lt geoParent (by decide)
  intro y hy
  by_cases h1 : y = 100
  · subst h1
    decide
  · by_cases h2 : y = 10
    · subst h2
      decide
    · have hz : geoParent y = 0 := by
        simp [geoParent, h1, h2]
      rw [hz]
      exact Fin.pos_of_ne_zero hy

/-- C2: for every input id sequence and every acyclic parent relation with
absorbing sentinel 0, `dictGetHierarchy`'s walker returns per row exactly the
chain `[id, parent(id), parent(parent(id)), ...]` stopping before the
sentinel (an id of 0 yields an empty chain), with all chains flattened into
one buffer plus a cumulative offsets array. -/
theorem dictGetHierarchy_acyclic_spec (p : DictId → DictId) (hp0 : p 0 = 0)
    (hacyc : ∀ x : DictId, x ≠ 0 → ∀ k, 0 < k → p^[k] x ≠ x)
    (ids : List DictId) :
    getHierarchies p ids =
      ((ids.map (specChain p)).flatten,
        cumSums 0 (ids.map fun x => (specChain p x).length))
    ∧ (∀ x : DictId, specChain p x = if x = 0 then [] else x :: specChain p (p x))
    ∧ specChain p 0 = [] := by
  refine ⟨?_, fun x => specChain_eq p hacyc x, specChain_zero p⟩
  unfold getHierarchies
  rw [hierChains_eq_spec p hp0 hacyc ids, flattenChains_eq]
  refine Prod.ext rfl ?_
  rw [List.map_map]
  rfl

/-- Witness for C2 at the spec's `geo` example relation, on input `[100]`. -/
theorem dictGetHierarchy_acyclic_spec_witness :
    geoParent 0 = 0 ∧
      getHierarchies geoParent [100] =
        (([(100 : DictId)].map (specChain geoParent)).flatten,
          cumSums 0 ([(100 : DictId)].map fun x => (specChain geoParent x).length)) :=
  ⟨geoParent_sentinel,
   (dictGetHierarchy_acyclic_spec geoParent geoParent_sentinel geoParent_acyclic [100]).1⟩

/-! ### Sample dictionaries and registries for concrete witnesses -/

/-- A concrete flat dictionary: key 100 present with value 42, no hierarchy
capability, attributes `attr : UInt64` and `weird` of an executor-less type. -/
def sampleDict : Dictionary Nat Unit where
  kind := .flat
  typeName := "Flat"
  keyDescription := "UInt64"
  attributes := [("attr", .tUInt64), ("weird", .tOther)]
  hasHierarchy := false
  hasKey := fun i => decide (i = 100)
  hasCKey := fun _ => false
  getValue := fun _ _ => 42
  getCKValue := fun _ _ => 0
  getRangeValue := fun _ _ _ => 0
  toParent := geoParent
  isIn := fun _ _ => false

/-- Registry resolving only the name `geo`, to `sampleDict`. -/
def sampleReg : DictRegistry Nat Unit :=
  fun s => if s = "geo" then some sampleDict else none

/-- A composite-key dictionary that even reports a hierarchy capability. -/
def sampleComplexDict : Dictionary Nat Unit :=
  { sampleDict with
    kind := .complexKeyHashed
    typeName := "ComplexKeyHashed"
    hasHierarchy := true }

/-- Registry resolving only the name `cx`, to `sampleComplexDict`. -/
def sampleComplexReg : DictRegistry Nat Unit :=
  fun s => if s = "cx" then some sampleComplexDict else none

/-- A flat dictionary with a hierarchy, following the spec's `geo` example. -/
def sampleHierDict : Dictionary Nat Unit :=
  { sampleDict with hasHierarchy := true }

/-- Registry resolving only the name `geoh`, to `sampleHierDict`. -/
def sampleHierReg : DictRegistry Nat Unit :=
  fun s => if s = "geoh" then some sampleHierDict else none

/-! ### Claim theorems for dispatch and error handling -/

/-- Reduction of the `Except` monad bind on a resolved dictionary. -/
theorem except_bind_ok {ε β γ : Type} (a : β) (f : β → Except ε γ) :
    (Except.ok (ε := ε) a >>= f) = f a := rfl

/-- C7: the backend dispatch of `dictHas` and `dictGet` tries the probes in
the fixed order (scalar-keyed simple backends, then composite-keyed backends,
then range-keyed where applicable), stops at the first matching concrete
kind, and when no probe matches the handle's kind it fails with an
unsupported-dictionary-kind error naming the concrete backend type name. -/
theorem dispatch_priority_order (α κ : Type) (d : Dictionary α κ) (key : KeyCol κ)
    (fname : String) (attrName : NameCol) (dateArg : Option DateCol) :
    (dictHasDispatch d key =
      match d.kind with
      | .flat | .hashed | .cache => dictHasSimpleBody d key
      | .complexKeyHashed | .complexKeyCache | .trie => dictHasComplexBody d key
      | .rangeHashed =>
        Except.error ⟨.UNKNOWN_TYPE, "Unsupported dictionary type " ++ d.typeName⟩)
    ∧ (dictGetDispatch fname attrName key dateArg d =
      match d.kind with
      | .flat | .hashed | .cache => dictGetSimpleBody fname attrName key dateArg d
      | .complexKeyHashed | .complexKeyCache | .trie =>
        dictGetComplexBody fname attrName key dateArg d
      | .rangeHashed => dictGetRangeBody fname attrName key dateArg d) := by
  constructor <;>
    (cases hk : d.kind <;>
      simp [dictHasDispatch, dictGetDispatch, dispatchProbe, hk])

/-- C8: on a non-empty block, when the dispatcher of `dictGetHierarchy` or
`dictIsIn` matches the dictionary's concrete kind but the backend reports no
hierarchy capability, the call fails with the unsupported-operation error
"Dictionary does not have a hierarchy", for every key column (so before any
lookup is performed). -/
theorem hierarchy_capability_required (α κ : Type) (reg : DictRegistry α κ)
    (s : String) (d : Dictionary α κ) (key child ancestor : KeyCol κ) (rows : Nat)
    (hreg : reg s = some d)
    (hkind : d.kind = .flat ∨ d.kind = .hashed ∨ d.kind = .cache)
    (hrows : rows ≠ 0) (hh : d.hasHierarchy = false) :
    dictGetHierarchyExec reg (.cstr s) key rows =
      .error ⟨.UNSUPPORTED_METHOD, "Dictionary does not have a hierarchy"⟩
    ∧ dictIsInExec reg (.cstr s) child ancestor rows =
      .error ⟨.UNSUPPORTED_METHOD, "Dictionary does not have a hierarchy"⟩ := by
  have hd : getDictionary reg s = .ok d := by simp [getDictionary, hreg]
  constructor <;>
    (rcases hkind with hk | hk | hk <;>
      simp [dictGetHierarchyExec, dictIsInExec, hrows, hd,
        dictGetHierarchyDispatch, dictIsInDispatch, dispatchProbe, hk,
        dictGetHierarchyBody, dictIsInBody, hh, except_bind_ok])

/-- Witness for C8: `sampleDict` is flat without hierarchy; both functions
fail with the capability error on a one-row block. -/
theorem hierarchy_capability_required_witness :
    (sampleReg "geo" = some sampleDict ∧ sampleDict.hasHierarchy = false) ∧
      dictGetHierarchyExec sampleReg (.cstr "geo") (KeyCol.u64 (κ := Unit) [100]) 1 =
        .error ⟨.UNSUPPORTED_METHOD, "Dictionary does not have a hierarchy"⟩ :=
  ⟨⟨rfl, rfl⟩,
   (hierarchy_capability_required Nat Unit sampleReg "geo" sampleDict
      (KeyCol.u64 [100]) (KeyCol.u64 [100]) (KeyCol.u64 [100]) 1 rfl
      (Or.inl rfl) (by decide) rfl).1⟩

/-- C10 (implicit): `dictGetHierarchy` and `dictIsIn` probe only the three
scalar-keyed backends; for every composite-key or range-keyed dictionary they
fail with the unsupported-dictionary-kind error naming the backend type,
never reaching the hierarchy-capability check (the dictionary's hierarchy
capability is left arbitrary). -/
theorem hierarchy_funcs_probe_simple_only (α κ : Type) (reg : DictRegistry α κ)
    (s : String) (d : Dictionary α κ) (key child ancestor : KeyCol κ) (rows : Nat)
    (hreg : reg s = some d) (hrows : rows ≠ 0)
    (hkind : d.kind = .complexKeyHashed ∨ d.kind = .complexKeyCache ∨
      d.kind = .trie ∨ d.kind = .rangeHashed) :
    dictGetHierarchyExec reg (.cstr s) key rows =
      .error ⟨.UNKNOWN_TYPE, "Unsupported dictionary type " ++ d.typeName⟩
    ∧ dictIsInExec reg (.cstr s) child ancestor rows =
      .error ⟨.UNKNOWN_TYPE, "Unsupported dictionary type " ++ d.typeName⟩ := by
  have hd : getDictionary reg s = .ok d := by simp [getDictionary, hreg]
  constructor <;>
    (rcases hkind with hk | hk | hk | hk <;>
      simp [dictGetHierarchyExec, dictIsInExec, hrows, hd,
        dictGetHierarchyDispatch, dictIsInDispatch, dispatchProbe, hk, except_bind_ok])

/-- Witness for C10: a composite-key dictionary that reports a hierarchy
still gets the unsupported-dictionary-kind error from `dictGetHierarchy`. -/
theorem hierarchy_funcs_probe_simple_only_witness :
    (sampleComplexReg "cx" = some sampleComplexDict ∧
      sampleComplexDict.hasHierarchy = true) ∧
      dictGetHierarchyExec sampleComplexReg (.cstr "cx") (KeyCol.u64 (κ := Unit) [100]) 1 =
        .error ⟨.UNKNOWN_TYPE, "Unsupported dictionary type ComplexKeyHashed"⟩ :=
  ⟨⟨rfl, rfl⟩,
   (hierarchy_funcs_probe_simple_only Nat Unit sampleComplexReg "cx" sampleComplexDict
      (KeyCol.u64 [100]) (KeyCol.u64 [100]) (KeyCol.u64 [100]) 1 rfl (by decide)
      (Or.inl rfl)).1⟩

/-- C3 (amended): on a zero-row block, `dictHas`, the typed gets, the typed
get-or-defaults, `dictGetHierarchy` and `dictIsIn` return an empty column of
their output type without consulting the registry (the conclusion is a fixed
value for every registry, including one where the named dictionary does not
exist); for the type-erased `dictGet`, once its return-type resolution has
succeeded, execution on a zero-row block likewise returns the empty column.
Return-type resolution of the type-erased entry points, however, does consult
the registry (see the counterexample theorem). -/
theorem zero_row_short_circuit (α κ : Type) [Inhabited α] :
    ∀ (reg : DictRegistry α κ) (fname s a : String) (key child ancestor : KeyCol κ)
      (dateArg : Option DateCol) (dflt : DefCol α) (argTypesOk : Bool),
      dictHasExec reg (.cstr s) key 0 = .ok (.vec [])
      ∧ dictGetExec fname reg (.cstr s) (.cstr a) key dateArg 0 = .ok (.vec [])
      ∧ dictGetOrDefaultExec fname reg (.cstr s) (.cstr a) key dflt 0 = .ok (.vec [])
      ∧ dictGetHierarchyExec reg (.cstr s) key 0 = .ok (.arr [] [])
      ∧ dictIsInExec reg (.cstr s) child ancestor 0 = .ok (.vec [])
      ∧ (∀ r, dictGetNoTypeResolve reg (.cstr s) (.cstr a) argTypesOk = .ok r →
          dictGetNoTypeInvoke (α := α) reg (.cstr s) (.cstr a) argTypesOk key dateArg 0 =
            .ok (.vec [])) := by
  intro reg fname s a key child ancestor dateArg dflt argTypesOk
  refine ⟨rfl, rfl, rfl, rfl, rfl, ?_⟩
  intro r hr
  unfold dictGetNoTypeInvoke
  rw [hr, except_bind_ok]
  rfl

/-- Counterexample for C3: a zero-row invocation of the type-erased `dictGet`
against a registry with no dictionaries fails during return-type resolution
with the registry's dictionary-not-loaded error, so zero-row evaluation of
the type-erased entry points does touch the dictionary registry. -/
theorem zero_row_notype_touches_registry :
    dictGetNoTypeInvoke (α := Nat) (κ := Unit) (fun _ => none) (.cstr "geo")
      (.cstr "attr") true (KeyCol.u64 []) none 0 =
      .error ⟨.DICTIONARIES_WAS_NOT_LOADED, "No such dictionary: geo"⟩ := rfl

/-- Witness for C3 (amended) at a registry where resolution succeeds. -/
theorem zero_row_short_circuit_witness :
    dictGetNoTypeResolve sampleReg (.cstr "geo") (.cstr "attr") true =
      .ok (.tUInt64, .implGetTyped .tUInt64)
    ∧ dictGetNoTypeInvoke (α := Nat) sampleReg (.cstr "geo") (.cstr "attr") true
        (KeyCol.u64 []) none 0 = .ok (.vec []) :=
  ⟨rfl,
   (zero_row_short_circuit Nat Unit sampleReg "dictGet" "geo" "attr"
      (KeyCol.u64 []) (KeyCol.u64 []) (KeyCol.u64 []) none (DefCol.constd 0 0)
      true).2.2.2.2.2 (.tUInt64, .implGetTyped .tUInt64) rfl⟩

/-- C4: for get-or-default on a scalar-keyed backend with a constant id and a
vector default column: when the key is absent, the result is the original
default column (same values, still a vector column); when the key is present,
the result is a constant column of the fetched value broadcast to the input
row count. -/
theorem getOrDefault_const_id_vector_default (α κ : Type) [Inhabited α]
    (fname : String) (reg : DictRegistry α κ) (s attr : String)
    (d : Dictionary α κ) (n rows : Nat) (v : DictId) (defs : List α)
    (hreg : reg s = some d)
    (hkind : d.kind = .flat ∨ d.kind = .hashed ∨ d.kind = .cache)
    (hrows : rows ≠ 0) (hn : n = rows) :
    (d.hasKey v = false →
      dictGetOrDefaultExec fname reg (.cstr s) (.cstr attr) (.u64const n v)
        (.vecd defs) rows = .ok (.vec defs))
    ∧ (d.hasKey v = true →
      dictGetOrDefaultExec fname reg (.cstr s) (.cstr attr) (.u64const n v)
        (.vecd defs) rows = .ok (.const rows (d.getValue attr v))) := by
  have hd : getDictionary reg s = .ok d := by simp [getDictionary, hreg]
  subst hn
  constructor
  · intro habs
    rcases hkind with hk | hk | hk <;>
      simp [dictGetOrDefaultExec, hrows, hd, dictGetOrDefaultDispatch,
        dispatchProbe, hk, dictGetOrDefaultSimpleBody, habs, except_bind_ok]
  · intro hpres
    rcases hkind with hk | hk | hk <;>
      simp [dictGetOrDefaultExec, hrows, hd, dictGetOrDefaultDispatch,
        dispatchProbe, hk, dictGetOrDefaultSimpleBody, hpres,
        Dictionary.getOrDefaultValue, except_bind_ok]

/-- Witness for C4: id 7 is absent from `sampleDict`, so the original vector
default column `[1, 2, 3]` is returned unchanged. -/
theorem getOrDefault_const_id_vector_default_witness :
    sampleDict.hasKey 7 = false ∧
      dictGetOrDefaultExec "dictGetUInt64OrDefault" sampleReg (.cstr "geo")
        (.cstr "attr") (KeyCol.u64const (κ := Unit) 3 7) (.vecd [1, 2, 3]) 3 =
        .ok (.vec [1, 2, 3]) :=
  ⟨by decide,
   (getOrDefault_const_id_vector_default Nat Unit "dictGetUInt64OrDefault"
      sampleReg "geo" "attr" sampleDict 3 3 7 [1, 2, 3] rfl (Or.inl rfl)
      (by decide) rfl).1 (by decide)⟩

/-- C5: for a scalar-keyed get on a non-empty block with a constant id (and
a constant default, for get-or-default), the result is a constant column of
multiplicity equal to the input row count whose single value is the
dictionary lookup result (the default value when the key is absent, for
get-or-default). -/
theorem const_id_constant_folding (α κ : Type) [Inhabited α]
    (fname : String) (reg : DictRegistry α κ) (s attr : String)
    (d : Dictionary α κ) (n rows m : Nat) (v : DictId) (df : α)
    (hreg : reg s = some d)
    (hkind : d.kind = .flat ∨ d.kind = .hashed ∨ d.kind = .cache)
    (hrows : rows ≠ 0) (hn : n = rows) :
    dictGetExec fname reg (.cstr s) (.cstr attr) (.u64const n v) none rows =
      .ok (.const rows (d.getValue attr v))
    ∧ dictGetOrDefaultExec fname reg (.cstr s) (.cstr attr) (.u64const n v)
        (.constd m df) rows =
      .ok (.const rows (if d.hasKey v then d.getValue attr v else df)) := by
  have hd : getDictionary reg s = .ok d := by simp [getDictionary, hreg]
  subst hn
  constructor
  · rcases hkind with hk | hk | hk <;>
      simp [dictGetExec, hrows, hd, dictGetDispatch, dispatchProbe, hk,
        dictGetSimpleBody, except_bind_ok]
  · rcases hkind with hk | hk | hk <;>
      simp [dictGetOrDefaultExec, hrows, hd, dictGetOrDefaultDispatch,
        dispatchProbe, hk, dictGetOrDefaultSimpleBody,
        Dictionary.getOrDefaultValue, except_bind_ok]

/-- Witness for C5: constant id 100 (present, value 42) on a two-row block
yields a constant column of multiplicity 2. -/
theorem const_id_constant_folding_witness :
    dictGetExec "dictGetUInt64" sampleReg (.cstr "geo") (.cstr "attr")
      (KeyCol.u64const (κ := Unit) 2 100) none 2 = .ok (.const 2 42) :=
  (const_id_constant_folding Nat Unit "dictGetUInt64" sampleReg "geo" "attr"
    sampleDict 2 2 0 100 0 rfl (Or.inl rfl) (by decide) rfl).1

/-- C6 (code bug): `getColumnDataAsPaddedPODArray` on a constant column whose
nested storage matches the target type returns the nested single-element data
(length 1), not a sequence of the column's row count; the vector branch and
the materializing fallback branch do return exactly the column's row count. -/
theorem getColumnDataAsPaddedPODArray_const_size_mismatch :
    getColumnDataAsPaddedPODArray (PodCol.constVec 2 (7 : Nat)) = [7]
    ∧ (PodCol.constVec 2 (7 : Nat)).size = 2
    ∧ (∀ (τ : Type) (data : List τ),
        (getColumnDataAsPaddedPODArray (PodCol.vec data)).length =
          (PodCol.vec data).size)
    ∧ (∀ (τ : Type) (nrows : Nat) (acc : Nat → τ),
        (getColumnDataAsPaddedPODArray (PodCol.other nrows acc)).length =
          (PodCol.other nrows acc).size) := by
  refine ⟨rfl, rfl, ?_, ?_⟩ <;>
    (intros; simp [getColumnDataAsPaddedPODArray, PodCol.size])

/-- C9: the type-erased entry points scan the resolved dictionary's attribute
list by name; no match fails with the no-such-attribute error, a match whose
declared type tag has no typed executor fails with the unknown-type error,
and otherwise the selected executor and the declared return type are exactly
those determined by the attribute's declared type. -/
theorem notype_attribute_resolution (α κ : Type) (reg : DictRegistry α κ)
    (dn an : String) (d : Dictionary α κ) (defTag : TypeTag)
    (hreg : reg dn = some d) :
    (d.attributes.find? (fun a => a.1 == an) = none →
      dictGetNoTypeResolve reg (.cstr dn) (.cstr an) true =
        .error ⟨.BAD_ARGUMENTS, "No such attribute \x27" ++ an ++ "\x27"⟩
      ∧ dictGetNoTypeOrDefaultResolve reg (.cstr dn) (.cstr an) true defTag =
        .error ⟨.BAD_ARGUMENTS, "No such attribute \x27" ++ an ++ "\x27"⟩)
    ∧ (∀ nm t, d.attributes.find? (fun a => a.1 == an) = some (nm, t) →
      (resolveImpl t = none →
        dictGetNoTypeResolve reg (.cstr dn) (.cstr an) true =
          .error ⟨.UNKNOWN_TYPE, "Unknown dictGet type"⟩)
      ∧ (∀ impl, resolveImpl t = some impl →
        dictGetNoTypeResolve reg (.cstr dn) (.cstr an) true = .ok (t, impl))
      ∧ (resolveOrDefaultImpl t = none →
        dictGetNoTypeOrDefaultResolve reg (.cstr dn) (.cstr an) true defTag =
          .error ⟨.UNKNOWN_TYPE, "Unknown dictGetOrDefault type"⟩)
      ∧ (∀ impl, resolveOrDefaultImpl t = some impl → defTag = t →
        dictGetNoTypeOrDefaultResolve reg (.cstr dn) (.cstr an) true defTag =
          .ok (t, impl))) := by
  have hd : getDictionary reg dn = .ok d := by simp [getDictionary, hreg]
  constructor
  · intro hfind
    constructor <;>
      simp [dictGetNoTypeResolve, dictGetNoTypeOrDefaultResolve, hd, hfind,
        except_bind_ok]
  · intro nm t hfind
    refine ⟨?_, ?_, ?_, ?_⟩
    · intro hnone
      simp [dictGetNoTypeResolve, hd, hfind, hnone, except_bind_ok]
    · intro impl himpl
      simp [dictGetNoTypeResolve, hd, hfind, himpl, except_bind_ok]
    · intro hnone
      simp [dictGetNoTypeOrDefaultResolve, hd, hfind, hnone, except_bind_ok]
    · intro impl himpl hdef
      simp [dictGetNoTypeOrDefaultResolve, hd, hfind, himpl, hdef, except_bind_ok]

/-- Witness for C9: resolving attribute `attr : UInt64` of `sampleDict`
selects the UInt64 executor and returns the declared type. -/
theorem notype_attribute_resolution_witness :
    (sampleReg "geo" = some sampleDict ∧
      sampleDict.attributes.find? (fun a => a.1 == "attr") = some ("attr", .tUInt64) ∧
      resolveImpl .tUInt64 = some (.implGetTyped .tUInt64)) ∧
      dictGetNoTypeResolve sampleReg (.cstr "geo") (.cstr "attr") true =
        .ok (.tUInt64, .implGetTyped .tUInt64) :=
  ⟨⟨rfl, by decide, by decide⟩,
   ((notype_attribute_resolution Nat Unit sampleReg "geo" "attr" sampleDict
      .tUInt64 rfl).2 "attr" .tUInt64 (by decide)).2.1 (.implGetTyped .tUInt64)
      (by decide)⟩
